import Mathlib

/-!
Verification of the strand-protocol core against its specification.

Each Rust component is shallowly embedded: machine integers become `Nat`
with explicit `% 2 ^ w` where the source casts or wraps, byte buffers
become `List Nat`, `Duration` / `Instant` become `Nat` nanoseconds,
fallible operations return `Except`.  The definitions follow the Rust
source (strandstream, nexstream, strandtrust, nextrust crates); theorems
settle the specification claims.
-/

namespace Strand

/-! ## Byte-level helpers (big-endian integer encoding, `bytes` crate) -/

/-- Big-endian encoding of a 16-bit value (`put_u16`). -/
def be16 (x : Nat) : List Nat := [x / 256 % 256, x % 256]

/-- Big-endian encoding of a 32-bit value (`put_u32`). -/
def be32 (x : Nat) : List Nat :=
  [x / 16777216 % 256, x / 65536 % 256, x / 256 % 256, x % 256]

/-- Big-endian encoding of a 64-bit value (`put_u64`). -/
def be64 (x : Nat) : List Nat :=
  [x / 72057594037927936 % 256, x / 281474976710656 % 256, x / 1099511627776 % 256,
   x / 4294967296 % 256, x / 16777216 % 256, x / 65536 % 256, x / 256 % 256, x % 256]

/-- Reassemble a big-endian 16-bit value (`get_u16`). -/
def rd16 (b0 b1 : Nat) : Nat := b0 * 256 + b1

/-- Reassemble a big-endian 32-bit value (`get_u32`). -/
def rd32 (b0 b1 b2 b3 : Nat) : Nat := b0 * 16777216 + b1 * 65536 + b2 * 256 + b3

/-- Reassemble a big-endian 64-bit value (`get_u64`). -/
def rd64 (b0 b1 b2 b3 b4 b5 b6 b7 : Nat) : Nat :=
  b0 * 72057594037927936 + b1 * 281474976710656 + b2 * 1099511627776 + b3 * 4294967296 +
  b4 * 16777216 + b5 * 65536 + b6 * 256 + b7

theorem rd16_be16 (x : Nat) (h : x < 65536) :
    rd16 (x / 256 % 256) (x % 256) = x := by
  simp only [rd16]; omega

theorem rd32_be32 (x : Nat) (h : x < 4294967296) :
    rd32 (x / 16777216 % 256) (x / 65536 % 256) (x / 256 % 256) (x % 256) = x := by
  simp only [rd32]; omega

theorem rd64_be64 (x : Nat) (h : x < 18446744073709551616) :
    rd64 (x / 72057594037927936 % 256) (x / 281474976710656 % 256) (x / 1099511627776 % 256)
      (x / 4294967296 % 256) (x / 16777216 % 256) (x / 65536 % 256) (x / 256 % 256)
      (x % 256) = x := by
  simp only [rd64]; omega

/-! ## Frame codec (`strandstream/src/frame.rs`) -/

/-- `NexStreamError` variants reachable from the frame codec. -/
inductive FrameError where
  | unknownFrameType (byte : Nat)
  | frameTooShort (expected actual : Nat)
  deriving DecidableEq, Repr

/-- `FrameType` — the 13 wire frame type tags. -/
inductive FrameType where
  | data | ack | nack | fin | rst | ping | pong | windowUpdate
  | streamOpen | streamAck | streamClose | streamReset | congestion
  deriving DecidableEq, Repr

/-- Wire value of a frame type (`FrameType as u8`). -/
def FrameType.tag : FrameType → Nat
  | .data => 0x01 | .ack => 0x02 | .nack => 0x03 | .fin => 0x04
  | .rst => 0x05 | .ping => 0x06 | .pong => 0x07 | .windowUpdate => 0x08
  | .streamOpen => 0x10 | .streamAck => 0x11 | .streamClose => 0x12
  | .streamReset => 0x13 | .congestion => 0x40

/-- `TryFrom<u8> for FrameType`. -/
def FrameType.ofByte (value : Nat) : Except FrameError FrameType :=
  if value = 0x01 then .ok .data
  else if value = 0x02 then .ok .ack
  else if value = 0x03 then .ok .nack
  else if value = 0x04 then .ok .fin
  else if value = 0x05 then .ok .rst
  else if value = 0x06 then .ok .ping
  else if value = 0x07 then .ok .pong
  else if value = 0x08 then .ok .windowUpdate
  else if value = 0x10 then .ok .streamOpen
  else if value = 0x11 then .ok .streamAck
  else if value = 0x12 then .ok .streamClose
  else if value = 0x13 then .ok .streamReset
  else if value = 0x40 then .ok .congestion
  else .error (.unknownFrameType value)

/-- A NACK/ACK sequence range (`SeqRange`). -/
structure SeqRange where
  start : Nat
  stop : Nat
  deriving DecidableEq, Repr

/-- NexStream wire frame (`Frame`).  Numeric fields are the Rust `u32`/`u64`
fields; `payload` is the byte list of the `Bytes` payload. -/
inductive Frame where
  | data (stream_id seq : Nat) (flags : Nat) (payload : List Nat)
  | ack (stream_id ack_seq : Nat) (ranges : List SeqRange)
  | nack (stream_id : Nat) (ranges : List SeqRange)
  | fin (stream_id : Nat)
  | rst (stream_id error_code : Nat)
  | ping (ping_id : Nat)
  | pong (ping_id : Nat)
  | windowUpdate (stream_id window_increment : Nat)
  | streamOpen (stream_id transport_mode : Nat)
  | streamAck (stream_id : Nat)
  | streamClose (stream_id : Nat)
  | streamReset (stream_id error_code : Nat)
  | congestion (stream_id cwnd rtt_us : Nat)
  deriving DecidableEq, Repr

namespace Frame

/-- Encoding of a range list: `(start:u32, end:u32)` pairs. -/
def encodeRanges (ranges : List SeqRange) : List Nat :=
  ranges.flatMap fun r => be32 r.start ++ be32 r.stop

/-- `Frame::encode_into` / `Frame::encode`: one type byte then the
variant's fields.  `payload.len() as u32` and `ranges.len() as u16`
are the two casts in the source. -/
def encode : Frame → List Nat
  | .data stream_id seq flags payload =>
      FrameType.data.tag :: be32 stream_id ++ be32 seq ++ flags % 256 ::
        be32 (payload.length % 4294967296) ++ payload
  | .ack stream_id ack_seq ranges =>
      FrameType.ack.tag :: be32 stream_id ++ be32 ack_seq ++
        be16 (ranges.length % 65536) ++ encodeRanges ranges
  | .nack stream_id ranges =>
      FrameType.nack.tag :: be32 stream_id ++
        be16 (ranges.length % 65536) ++ encodeRanges ranges
  | .fin stream_id => FrameType.fin.tag :: be32 stream_id
  | .rst stream_id error_code =>
      FrameType.rst.tag :: be32 stream_id ++ be32 error_code
  | .ping ping_id => FrameType.ping.tag :: be64 ping_id
  | .pong ping_id => FrameType.pong.tag :: be64 ping_id
  | .windowUpdate stream_id window_increment =>
      FrameType.windowUpdate.tag :: be32 stream_id ++ be32 window_increment
  | .streamOpen stream_id transport_mode =>
      FrameType.streamOpen.tag :: be32 stream_id ++ [transport_mode % 256]
  | .streamAck stream_id => FrameType.streamAck.tag :: be32 stream_id
  | .streamClose stream_id => FrameType.streamClose.tag :: be32 stream_id
  | .streamReset stream_id error_code =>
      FrameType.streamReset.tag :: be32 stream_id ++ be32 error_code
  | .congestion stream_id cwnd rtt_us =>
      FrameType.congestion.tag :: be32 stream_id ++ be32 cwnd ++ be32 rtt_us

/-- `Frame::encoded_len`: exact number of bytes `encode` will produce. -/
def encodedLen : Frame → Nat
  | .data _ _ _ payload => 1 + (4 + 4 + 1 + 4 + payload.length)
  | .ack _ _ ranges => 1 + (4 + 4 + 2 + ranges.length * 8)
  | .nack _ ranges => 1 + (4 + 2 + ranges.length * 8)
  | .fin _ => 1 + 4
  | .rst _ _ => 1 + (4 + 4)
  | .ping _ => 1 + 8
  | .pong _ => 1 + 8
  | .windowUpdate _ _ => 1 + (4 + 4)
  | .streamOpen _ _ => 1 + (4 + 1)
  | .streamAck _ => 1 + 4
  | .streamClose _ => 1 + 4
  | .streamReset _ _ => 1 + (4 + 4)
  | .congestion _ _ _ => 1 + (4 + 4 + 4)

/-- `Frame::decode_ranges`: read `count` ranges of 8 bytes each.  The
source indexes unconditionally (callers have checked the length); the
impossible short case returns `[]`. -/
def decodeRanges (data : List Nat) (count : Nat) : List SeqRange :=
  match count, data with
  | 0, _ => []
  | n + 1, a :: b :: c :: d :: e :: f :: g :: h :: rest =>
      ⟨rd32 a b c d, rd32 e f g h⟩ :: decodeRanges rest n
  | _ + 1, _ => []

/-- `Frame::decode`.  Each variant mirrors the source: an `ensure_len`
length check (pattern match on the required fixed prefix, or an explicit
length test for the variable part), then big-endian field reads. -/
def decode (input : List Nat) : Except FrameError Frame :=
  match input with
  | [] => .error (.frameTooShort 1 0)
  | t :: buf =>
    match FrameType.ofByte t with
    | .error e => .error e
    | .ok ft =>
      match ft with
      | FrameType.data =>
        match buf with
        | s0 :: s1 :: s2 :: s3 :: q0 :: q1 :: q2 :: q3 :: fl :: l0 :: l1 :: l2 :: l3 :: rest =>
            let payload_len := rd32 l0 l1 l2 l3
            if rest.length < payload_len then
              .error (.frameTooShort payload_len rest.length)
            else
              .ok (.data (rd32 s0 s1 s2 s3) (rd32 q0 q1 q2 q3) fl (rest.take payload_len))
        | _ => .error (.frameTooShort 13 buf.length)
      | FrameType.ack =>
        match buf with
        | s0 :: s1 :: s2 :: s3 :: q0 :: q1 :: q2 :: q3 :: c0 :: c1 :: rest =>
            let range_count := rd16 c0 c1
            if rest.length < range_count * 8 then
              .error (.frameTooShort (range_count * 8) rest.length)
            else
              .ok (.ack (rd32 s0 s1 s2 s3) (rd32 q0 q1 q2 q3) (decodeRanges rest range_count))
        | _ => .error (.frameTooShort 10 buf.length)
      | FrameType.nack =>
        match buf with
        | s0 :: s1 :: s2 :: s3 :: c0 :: c1 :: rest =>
            let range_count := rd16 c0 c1
            if rest.length < range_count * 8 then
              .error (.frameTooShort (range_count * 8) rest.length)
            else
              .ok (.nack (rd32 s0 s1 s2 s3) (decodeRanges rest range_count))
        | _ => .error (.frameTooShort 6 buf.length)
      | FrameType.fin =>
        match buf with
        | s0 :: s1 :: s2 :: s3 :: _ => .ok (.fin (rd32 s0 s1 s2 s3))
        | _ => .error (.frameTooShort 4 buf.length)
      | FrameType.rst =>
        match buf with
        | s0 :: s1 :: s2 :: s3 :: e0 :: e1 :: e2 :: e3 :: _ =>
            .ok (.rst (rd32 s0 s1 s2 s3) (rd32 e0 e1 e2 e3))
        | _ => .error (.frameTooShort 8 buf.length)
      | FrameType.ping =>
        match buf with
        | a :: b :: c :: d :: e :: f :: g :: h :: _ =>
            .ok (.ping (rd64 a b c d e f g h))
        | _ => .error (.frameTooShort 8 buf.length)
      | FrameType.pong =>
        match buf with
        | a :: b :: c :: d :: e :: f :: g :: h :: _ =>
            .ok (.pong (rd64 a b c d e f g h))
        | _ => .error (.frameTooShort 8 buf.length)
      | FrameType.windowUpdate =>
        match buf with
        | s0 :: s1 :: s2 :: s3 :: w0 :: w1 :: w2 :: w3 :: _ =>
            .ok (.windowUpdate (rd32 s0 s1 s2 s3) (rd32 w0 w1 w2 w3))
        | _ => .error (.frameTooShort 8 buf.length)
      | FrameType.streamOpen =>
        match buf with
        | s0 :: s1 :: s2 :: s3 :: m :: _ =>
            .ok (.streamOpen (rd32 s0 s1 s2 s3) m)
        | _ => .error (.frameTooShort 5 buf.length)
      | FrameType.streamAck =>
        match buf with
        | s0 :: s1 :: s2 :: s3 :: _ => .ok (.streamAck (rd32 s0 s1 s2 s3))
        | _ => .error (.frameTooShort 4 buf.length)
      | FrameType.streamClose =>
        match buf with
        | s0 :: s1 :: s2 :: s3 :: _ => .ok (.streamClose (rd32 s0 s1 s2 s3))
        | _ => .error (.frameTooShort 4 buf.length)
      | FrameType.streamReset =>
        match buf with
        | s0 :: s1 :: s2 :: s3 :: e0 :: e1 :: e2 :: e3 :: _ =>
            .ok (.streamReset (rd32 s0 s1 s2 s3) (rd32 e0 e1 e2 e3))
        | _ => .error (.frameTooShort 8 buf.length)
      | FrameType.congestion =>
        match buf with
        | s0 :: s1 :: s2 :: s3 :: c0 :: c1 :: c2 :: c3 :: r0 :: r1 :: r2 :: r3 :: _ =>
            .ok (.congestion (rd32 s0 s1 s2 s3) (rd32 c0 c1 c2 c3) (rd32 r0 r1 r2 r3))
        | _ => .error (.frameTooShort 12 buf.length)

/-- Well-formedness corresponding to the Rust field types: `u32`/`u16`/`u8`
fields are in range (guaranteed by typing in the source). -/
def WF : Frame → Prop
  | .data stream_id seq flags _ => stream_id < 4294967296 ∧ seq < 4294967296 ∧ flags < 256
  | .ack stream_id ack_seq ranges =>
      stream_id < 4294967296 ∧ ack_seq < 4294967296 ∧
        ∀ r ∈ ranges, r.start < 4294967296 ∧ r.stop < 4294967296
  | .nack stream_id ranges =>
      stream_id < 4294967296 ∧ ∀ r ∈ ranges, r.start < 4294967296 ∧ r.stop < 4294967296
  | .fin stream_id => stream_id < 4294967296
  | .rst stream_id error_code => stream_id < 4294967296 ∧ error_code < 4294967296
  | .ping ping_id => ping_id < 18446744073709551616
  | .pong ping_id => ping_id < 18446744073709551616
  | .windowUpdate stream_id window_increment =>
      stream_id < 4294967296 ∧ window_increment < 4294967296
  | .streamOpen stream_id transport_mode => stream_id < 4294967296 ∧ transport_mode < 256
  | .streamAck stream_id => stream_id < 4294967296
  | .streamClose stream_id => stream_id < 4294967296
  | .streamReset stream_id error_code => stream_id < 4294967296 ∧ error_code < 4294967296
  | .congestion stream_id cwnd rtt_us =>
      stream_id < 4294967296 ∧ cwnd < 4294967296 ∧ rtt_us < 4294967296


/-- The claim's size hypotheses: the payload fits the `u32` length field
and the range list fits the `u16` count field. -/
def sizeBounds : Frame → Prop
  | .data _ _ _ payload => payload.length < 4294967296
  | .ack _ _ ranges => ranges.length < 65536
  | .nack _ ranges => ranges.length < 65536
  | _ => True

theorem encodeRanges_length (ranges : List SeqRange) :
    (encodeRanges ranges).length = ranges.length * 8 := by
  induction ranges with
  | nil => rfl
  | cons r rs ih =>
      show ((be32 r.start ++ be32 r.stop) ++ encodeRanges rs).length = (rs.length + 1) * 8
      simp only [List.length_append, ih, be32, List.length_cons, List.length_nil]
      omega

theorem decodeRanges_encodeRanges (ranges : List SeqRange) (tail : List Nat)
    (hwf : ∀ r ∈ ranges, r.start < 4294967296 ∧ r.stop < 4294967296) :
    decodeRanges (encodeRanges ranges ++ tail) ranges.length = ranges := by
  induction ranges with
  | nil => simp [encodeRanges, decodeRanges]
  | cons r rs ih =>
      have hr := hwf r (List.mem_cons_self r rs)
      have hrs : ∀ x ∈ rs, x.start < 4294967296 ∧ x.stop < 4294967296 :=
        fun x hx => hwf x (List.mem_cons_of_mem r hx)
      show decodeRanges (((be32 r.start ++ be32 r.stop) ++ encodeRanges rs) ++ tail)
        (rs.length + 1) = r :: rs
      simp only [be32, List.cons_append, List.nil_append, List.append_assoc, decodeRanges,
        List.append_eq]
      rw [rd32_be32 r.start hr.1, rd32_be32 r.stop hr.2, ih hrs]

end Frame

/-- C2: for every frame whose payload is shorter than `2^32` bytes and whose
ACK/NACK range list is shorter than `2^16` entries (`Frame.sizeBounds`, with
`Frame.WF` the in-range facts the Rust `u32`/`u16`/`u8` field types provide),
`decode (encode f) = Ok f` and `encoded_len f` equals the length of
`encode f`. -/
theorem frame_decode_encode_roundtrip (f : Frame) (hwf : f.WF) (hb : f.sizeBounds) :
    Frame.decode (Frame.encode f) = .ok f ∧
      (Frame.encode f).length = Frame.encodedLen f := by
  cases f with
  | data stream_id seq flags payload =>
      obtain ⟨h1, h2, h3⟩ := hwf
      have hb' : payload.length < 4294967296 := hb
      refine ⟨?_, by simp [Frame.encode, Frame.encodedLen, be32]; omega⟩
      have e1 : flags % 256 = flags := Nat.mod_eq_of_lt h3
      have e2 : payload.length % 4294967296 = payload.length := Nat.mod_eq_of_lt hb'
      simp only [Frame.encode, FrameType.tag, e1, e2, be32, List.cons_append, List.nil_append]
      simp only [Frame.decode, FrameType.ofByte]
      norm_num
      rw [rd32_be32 payload.length hb']
      simp only [lt_irrefl, if_false, List.take_length]
      rw [rd32_be32 stream_id h1, rd32_be32 seq h2]
  | ack stream_id ack_seq ranges =>
      obtain ⟨h1, h2, h3⟩ := hwf
      have hb' : ranges.length < 65536 := hb
      refine ⟨?_, by simp [Frame.encode, Frame.encodedLen, be32, be16,
        Frame.encodeRanges_length]; omega⟩
      have e2 : ranges.length % 65536 = ranges.length := Nat.mod_eq_of_lt hb'
      simp only [Frame.encode, FrameType.tag, e2, be32, be16, List.cons_append,
        List.nil_append, List.append_assoc]
      simp only [Frame.decode, FrameType.ofByte]
      norm_num
      rw [rd16_be16 ranges.length hb', Frame.encodeRanges_length]
      simp only [lt_irrefl, if_false]
      rw [rd32_be32 stream_id h1, rd32_be32 ack_seq h2]
      rw [show Frame.encodeRanges ranges = Frame.encodeRanges ranges ++ ([] : List Nat) by simp]
      rw [Frame.decodeRanges_encodeRanges ranges [] h3]
  | nack stream_id ranges =>
      obtain ⟨h1, h3⟩ := hwf
      have hb' : ranges.length < 65536 := hb
      refine ⟨?_, by simp [Frame.encode, Frame.encodedLen, be32, be16,
        Frame.encodeRanges_length]; omega⟩
      have e2 : ranges.length % 65536 = ranges.length := Nat.mod_eq_of_lt hb'
      simp only [Frame.encode, FrameType.tag, e2, be32, be16, List.cons_append,
        List.nil_append, List.append_assoc]
      simp only [Frame.decode, FrameType.ofByte]
      norm_num
      rw [rd16_be16 ranges.length hb', Frame.encodeRanges_length]
      simp only [lt_irrefl, if_false]
      rw [rd32_be32 stream_id h1]
      rw [show Frame.encodeRanges ranges = Frame.encodeRanges ranges ++ ([] : List Nat) by simp]
      rw [Frame.decodeRanges_encodeRanges ranges [] h3]
  | fin stream_id =>
      have h1 : stream_id < 4294967296 := hwf
      refine ⟨?_, by simp [Frame.encode, Frame.encodedLen, be32]⟩
      simp only [Frame.encode, FrameType.tag, be32, List.cons_append, List.nil_append]
      simp only [Frame.decode, FrameType.ofByte]
      norm_num [rd32]
      omega
  | rst stream_id error_code =>
      obtain ⟨h1, h2⟩ := hwf
      refine ⟨?_, by simp [Frame.encode, Frame.encodedLen, be32]⟩
      simp only [Frame.encode, FrameType.tag, be32, List.cons_append, List.nil_append,
        List.append_assoc]
      simp only [Frame.decode, FrameType.ofByte]
      norm_num [rd32]
      omega
  | ping ping_id =>
      have h1 : ping_id < 18446744073709551616 := hwf
      refine ⟨?_, by simp [Frame.encode, Frame.encodedLen, be64]⟩
      simp only [Frame.encode, FrameType.tag, be64, List.cons_append, List.nil_append]
      simp only [Frame.decode, FrameType.ofByte]
      norm_num [rd64]
      omega
  | pong ping_id =>
      have h1 : ping_id < 18446744073709551616 := hwf
      refine ⟨?_, by simp [Frame.encode, Frame.encodedLen, be64]⟩
      simp only [Frame.encode, FrameType.tag, be64, List.cons_append, List.nil_append]
      simp only [Frame.decode, FrameType.ofByte]
      norm_num [rd64]
      omega
  | windowUpdate stream_id window_increment =>
      obtain ⟨h1, h2⟩ := hwf
      refine ⟨?_, by simp [Frame.encode, Frame.encodedLen, be32]⟩
      simp only [Frame.encode, FrameType.tag, be32, List.cons_append, List.nil_append,
        List.append_assoc]
      simp only [Frame.decode, FrameType.ofByte]
      norm_num [rd32]
      omega
  | streamOpen stream_id transport_mode =>
      obtain ⟨h1, h2⟩ := hwf
      refine ⟨?_, by simp [Frame.encode, Frame.encodedLen, be32]⟩
      simp only [Frame.encode, FrameType.tag, be32, List.cons_append, List.nil_append]
      simp only [Frame.decode, FrameType.ofByte]
      norm_num [rd32]
      omega
  | streamAck stream_id =>
      have h1 : stream_id < 4294967296 := hwf
      refine ⟨?_, by simp [Frame.encode, Frame.encodedLen, be32]⟩
      simp only [Frame.encode, FrameType.tag, be32, List.cons_append, List.nil_append]
      simp only [Frame.decode, FrameType.ofByte]
      norm_num [rd32]
      omega
  | streamClose stream_id =>
      have h1 : stream_id < 4294967296 := hwf
      refine ⟨?_, by simp [Frame.encode, Frame.encodedLen, be32]⟩
      simp only [Frame.encode, FrameType.tag, be32, List.cons_append, List.nil_append]
      simp only [Frame.decode, FrameType.ofByte]
      norm_num [rd32]
      omega
  | streamReset stream_id error_code =>
      obtain ⟨h1, h2⟩ := hwf
      refine ⟨?_, by simp [Frame.encode, Frame.encodedLen, be32]⟩
      simp only [Frame.encode, FrameType.tag, be32, List.cons_append, List.nil_append,
        List.append_assoc]
      simp only [Frame.decode, FrameType.ofByte]
      norm_num [rd32]
      omega
  | congestion stream_id cwnd rtt_us =>
      obtain ⟨h1, h2, h3⟩ := hwf
      refine ⟨?_, by simp [Frame.encode, Frame.encodedLen, be32]⟩
      simp only [Frame.encode, FrameType.tag, be32, List.cons_append, List.nil_append,
        List.append_assoc]
      simp only [Frame.decode, FrameType.ofByte]
      norm_num [rd32]
      omega

/-- Witness for C2 at a concrete ACK frame with one range. -/
theorem frame_decode_encode_roundtrip_witness :
    Frame.decode (Frame.encode (.ack 42 7 [⟨1, 2⟩])) = .ok (.ack 42 7 [⟨1, 2⟩]) ∧
      (Frame.encode (Frame.ack 42 7 [⟨1, 2⟩])).length =
        Frame.encodedLen (.ack 42 7 [⟨1, 2⟩]) :=
  frame_decode_encode_roundtrip (.ack 42 7 [⟨1, 2⟩])
    (by refine ⟨by norm_num, by norm_num, ?_⟩
        intro r hr
        simp only [List.mem_singleton] at hr
        subst hr
        exact ⟨by norm_num, by norm_num⟩)
    (by simp [Frame.sizeBounds])

/-! ## Reliable-Unordered receiver
(`strandstream/src/transport/reliable_unordered.rs`) -/

/-- `StrandStreamError` variants used by the embedded strandstream code. -/
inductive SSError where
  | internal (msg : String)
  | invalidStateTransition (src dst : String)
  | streamClosed (id : Nat)
  | streamNotFound (id : Nat)
  | maxStreamsExceeded (cap : Nat)
  | invalidStreamId (id : Nat)
  deriving DecidableEq, Repr

namespace RU

/-- Maximum number of sequence numbers in the delivered set before GC runs. -/
def DELIVERED_GC_THRESHOLD : Nat := 1024

/-- Number of oldest entries to discard when GC runs. -/
def DELIVERED_GC_DISCARD : Nat := 512

/-- `BTreeSet<u32>::insert` on the strictly ascending list model: returns
whether the element was newly inserted, and the updated set. -/
def insertSorted (s : Nat) : List Nat → Bool × List Nat
  | [] => (true, [s])
  | x :: xs =>
      if s < x then (true, s :: x :: xs)
      else if s = x then (false, x :: xs)
      else
        let r := insertSorted s xs
        (r.1, x :: r.2)

/-- `ReliableUnorderedReceiver`: the `BTreeSet` of delivered seqs, as a
strictly ascending list. -/
structure Receiver where
  delivered : List Nat
  deriving Repr

/-- `ReliableUnorderedReceiver::new`. -/
def Receiver.new : Receiver := ⟨[]⟩

/-- `ReliableUnorderedReceiver::gc`: collect the lowest
`DELIVERED_GC_DISCARD` keys and remove each of them. -/
def Receiver.gc (r : Receiver) : Receiver :=
  let toRemove := r.delivered.take DELIVERED_GC_DISCARD
  ⟨toRemove.foldl (fun d s => d.erase s) r.delivered⟩

/-- `ReliableUnorderedReceiver::receive`: deliver the payload iff the seq
was newly inserted, running GC when the set reaches the threshold;
non-DATA frames are an internal error. -/
def Receiver.receive (r : Receiver) (f : Frame) :
    Except SSError (List (List Nat) × Receiver) :=
  match f with
  | .data _ s _ payload =>
      let ins := insertSorted s r.delivered
      if ins.1 then
        let r' : Receiver := ⟨ins.2⟩
        let r'' := if DELIVERED_GC_THRESHOLD ≤ r'.delivered.length then r'.gc else r'
        .ok ([payload], r'')
      else
        .ok ([], ⟨ins.2⟩)
  | _ => .error (.internal ("ReliableUnorderedReceiver received non-data frame"))

/-- Number of times the payload of sequence number `s` is returned when the
given (seq, payload) DATA frames are presented to the receiver in order. -/
def Receiver.deliveredCount (r : Receiver) (frames : List (Nat × List Nat)) (s : Nat) :
    Nat :=
  match frames with
  | [] => 0
  | (t, p) :: rest =>
      match r.receive (Frame.data 1 t 0 p) with
      | .ok (outs, r') =>
          (if t = s ∧ outs ≠ [] then 1 else 0) + r'.deliveredCount rest s
      | .error _ => r.deliveredCount rest s

theorem insertSorted_eq_of_mem (s : Nat) (l : List Nat) (hs : l.Sorted (· < ·))
    (h : s ∈ l) : insertSorted s l = (false, l) := by
  induction l with
  | nil => cases h
  | cons x xs ih =>
      rcases List.mem_cons.mp h with rfl | hmem
      · simp [insertSorted]
      · have hx : x < s := (List.sorted_cons.mp hs).1 s hmem
        have ih' := ih (List.sorted_cons.mp hs).2 hmem
        simp only [insertSorted, if_neg (by omega : ¬s < x), if_neg (by omega : ¬s = x), ih']

theorem insertSorted_of_not_mem (s : Nat) (l : List Nat) (h : s ∉ l) :
    (insertSorted s l).1 = true ∧ (insertSorted s l).2.length = l.length + 1 ∧
      ∀ y, y ∈ (insertSorted s l).2 ↔ y = s ∨ y ∈ l := by
  induction l with
  | nil => simp [insertSorted]
  | cons x xs ih =>
      have hne : s ≠ x := fun hc => h (hc ▸ List.mem_cons_self x xs)
      have hnx : s ∉ xs := fun hc => h (List.mem_cons_of_mem x hc)
      by_cases hlt : s < x
      · exact ⟨by simp [insertSorted, hlt], by simp [insertSorted, hlt],
          fun y => by simp [insertSorted, hlt, List.mem_cons]⟩
      · obtain ⟨ih1, ih2, ih3⟩ := ih hnx
        simp only [insertSorted, if_neg hlt, if_neg hne]
        refine ⟨ih1, by simpa using ih2, fun y => ?_⟩
        simp only [List.mem_cons, ih3 y]
        tauto

theorem insertSorted_sorted (s : Nat) (l : List Nat) (hs : l.Sorted (· < ·)) :
    (insertSorted s l).2.Sorted (· < ·) := by
  by_cases hmem : s ∈ l
  · rw [insertSorted_eq_of_mem s l hs hmem]
    exact hs
  · induction l with
    | nil => simp [insertSorted]
    | cons x xs ih =>
        have hne : s ≠ x := fun hc => hmem (hc ▸ List.mem_cons_self x xs)
        have hnx : s ∉ xs := fun hc => hmem (List.mem_cons_of_mem x hc)
        obtain ⟨hhead, hxs⟩ := List.sorted_cons.mp hs
        by_cases hlt : s < x
        · simp only [insertSorted, if_pos hlt]
          exact List.sorted_cons.mpr ⟨fun y hy => by
            rcases List.mem_cons.mp hy with rfl | hy2
            · exact hlt
            · exact hlt.trans (hhead y hy2), hs⟩
        · simp only [insertSorted, if_neg hlt, if_neg hne]
          refine List.sorted_cons.mpr ⟨fun y hy => ?_, ih hxs hnx⟩
          rcases ((insertSorted_of_not_mem s xs hnx).2.2 y).mp hy with rfl | hy2
          · omega
          · exact hhead y hy2

theorem deliveredCount_spec (frames : List (Nat × List Nat)) (r : Receiver)
    (hs : r.delivered.Sorted (· < ·))
    (hcard : r.delivered.length +
      ((frames.map Prod.fst).toFinset \ r.delivered.toFinset).card ≤
        DELIVERED_GC_THRESHOLD - 1) (s : Nat) :
    r.deliveredCount frames s =
      if s ∈ r.delivered then 0
      else if s ∈ frames.map Prod.fst then 1 else 0 := by
  induction frames generalizing r with
  | nil => simp [Receiver.deliveredCount]
  | cons f rest ih =>
      obtain ⟨t, p⟩ := f
      by_cases hmem : t ∈ r.delivered
      · have hins := insertSorted_eq_of_mem t r.delivered hs hmem
        have hrec : r.deliveredCount ((t, p) :: rest) s = r.deliveredCount rest s := by
          simp [Receiver.deliveredCount, Receiver.receive, hins]
        rw [hrec]
        have hsub : ((rest.map Prod.fst).toFinset \ r.delivered.toFinset).card ≤
            ((((t, p) :: rest).map Prod.fst).toFinset \ r.delivered.toFinset).card := by
          apply Finset.card_le_card
          apply Finset.sdiff_subset_sdiff _ le_rfl
          simp only [List.map_cons, List.toFinset_cons]
          exact Finset.subset_insert _ _
        have := ih r hs (by omega) 
        rw [this]
        by_cases hsd : s ∈ r.delivered
        · simp [hsd]
        · have hst : s ≠ t := fun hc => hsd (hc ▸ hmem)
          have hcons : (s ∈ t :: List.map Prod.fst rest) ↔ s ∈ List.map Prod.fst rest := by
            simp [List.mem_cons, hst]
          by_cases hr : s ∈ List.map Prod.fst rest
          · simp [hsd, hr, hcons.mpr hr]
          · simp [hsd, hst, hr, fun hc => hr (hcons.mp hc)]
      · obtain ⟨hins1, hins2, hins3⟩ := insertSorted_of_not_mem t r.delivered hmem
        have htmem : t ∈ ((((t, p) :: rest).map Prod.fst).toFinset \ r.delivered.toFinset) := by
          simp [List.mem_toFinset, hmem]
        have hcard1 : 1 ≤ ((((t, p) :: rest).map Prod.fst).toFinset \
            r.delivered.toFinset).card := Finset.card_pos.mpr ⟨t, htmem⟩
        have hnogc : ¬DELIVERED_GC_THRESHOLD ≤ (insertSorted t r.delivered).2.length := by
          rw [hins2]
          simp only [DELIVERED_GC_THRESHOLD] at hcard ⊢
          omega
        have hrec : r.deliveredCount ((t, p) :: rest) s =
            (if t = s then 1 else 0) +
              Receiver.deliveredCount ⟨(insertSorted t r.delivered).2⟩ rest s := by
          simp [Receiver.deliveredCount, Receiver.receive, hins1, hnogc]
        rw [hrec]
        have hdfin : (insertSorted t r.delivered).2.toFinset =
            insert t r.delivered.toFinset := by
          apply Finset.ext
          intro y
          simp [List.mem_toFinset, hins3 y, Finset.mem_insert]
        have hcard' : (insertSorted t r.delivered).2.length +
            ((rest.map Prod.fst).toFinset \
              (insertSorted t r.delivered).2.toFinset).card ≤
            DELIVERED_GC_THRESHOLD - 1 := by
          rw [hins2, hdfin, Finset.sdiff_insert]
          have hstep : ((rest.map Prod.fst).toFinset \ r.delivered.toFinset).erase t ⊆
              ((((t, p) :: rest).map Prod.fst).toFinset \ r.delivered.toFinset).erase t := by
            apply Finset.erase_subset_erase
            apply Finset.sdiff_subset_sdiff _ le_rfl
            simp only [List.map_cons, List.toFinset_cons]
            exact Finset.subset_insert _ _
          have hcnt := Finset.card_le_card hstep
          have herase : (((((t, p) :: rest).map Prod.fst).toFinset \
              r.delivered.toFinset).erase t).card =
              ((((t, p) :: rest).map Prod.fst).toFinset \ r.delivered.toFinset).card - 1 :=
            Finset.card_erase_of_mem htmem
          omega
        have hihs := ih ⟨(insertSorted t r.delivered).2⟩
          (insertSorted_sorted t r.delivered hs) hcard' 
        simp only at hihs
        rw [hihs]
        by_cases hst : s = t
        · subst hst
          have hsd : s ∈ (insertSorted s r.delivered).2 := (hins3 s).mpr (Or.inl rfl)
          simp [hsd, hmem]
        · have hsd : s ∈ (insertSorted t r.delivered).2 ↔ s ∈ r.delivered := by
            rw [hins3 s]
            simp [hst]
          have hts : ¬t = s := fun hc => hst hc.symm
          by_cases hsdel : s ∈ r.delivered
          · simp [hsd.mpr hsdel, hsdel, hts]
          · have hnsd : s ∉ (insertSorted t r.delivered).2 := fun hc => hsdel (hsd.mp hc)
            have hcons : (s ∈ t :: List.map Prod.fst rest) ↔ s ∈ List.map Prod.fst rest := by
              simp [List.mem_cons, hst]
            by_cases hr : s ∈ List.map Prod.fst rest
            · simp [hnsd, hsdel, hts, hr, hcons.mpr hr]
            · simp [hnsd, hsdel, hst, hts, hr, fun hc => hr (hcons.mp hc)]

end RU

/-- C3 (amended): presenting to a fresh `ReliableUnorderedReceiver` any
sequence of DATA frames over at most `DELIVERED_GC_THRESHOLD - 1 = 1023`
distinct seqs (any order, arbitrary duplicates), each distinct seq's
payload is returned by `receive` exactly once over the whole run. -/
theorem ru_exactly_once_delivery (frames : List (Nat × List Nat))
    (hN : ((frames.map Prod.fst).toFinset).card ≤ RU.DELIVERED_GC_THRESHOLD - 1)
    (s : Nat) (hmem : s ∈ frames.map Prod.fst) :
    RU.Receiver.new.deliveredCount frames s = 1 := by
  have h := RU.deliveredCount_spec frames RU.Receiver.new (by simp [RU.Receiver.new])
    (by simpa [RU.Receiver.new] using hN) s
  simpa [RU.Receiver.new, hmem] using h

/-- Witness for C3 (amended): three frames over two distinct seqs, with a
duplicate of seq 5; seq 5's payload is returned exactly once. -/
theorem ru_exactly_once_delivery_witness :
    RU.Receiver.new.deliveredCount [(5, [1]), (3, [2]), (5, [1])] 5 = 1 :=
  ru_exactly_once_delivery [(5, [1]), (3, [2]), (5, [1])] (by decide) 5 (by decide)

set_option maxRecDepth 40000 in
/-- C3 counterexample: with exactly `N = DELIVERED_GC_THRESHOLD = 1024`
distinct seqs (presented in descending order 1023,…,0, a permutation of
1024 distinct seqs) followed by one duplicate of seq 0, the GC that runs on
the 1024th insertion discards seq 0, and the duplicate is re-delivered: the
payload of seq 0 is returned twice, not exactly once. -/
theorem ru_redelivery_at_threshold_counterexample :
    RU.Receiver.new.deliveredCount
      (((List.range RU.DELIVERED_GC_THRESHOLD).reverse.map (fun s => (s, [7]))) ++
        [(0, [7])]) 0 = 2 := by
  decide

deriving instance DecidableEq for Except

/-! ## Association-list helpers shared by the `HashMap` / `BTreeMap` models -/

/-- Remove a key from an association-list map (`HashMap` / `BTreeMap`). -/
def removeKey {β : Type} (seq : Nat) (p : List (Nat × β)) : List (Nat × β) :=
  p.filter fun kv => kv.1 ≠ seq

/-- Map insert (replaces any existing entry for the key). -/
def insertKey {β : Type} (seq : Nat) (v : β) (p : List (Nat × β)) : List (Nat × β) :=
  (seq, v) :: removeKey seq p

theorem lookup_consP {β : Type} (a k : Nat) (v : β) (rest : List (Nat × β)) :
    List.lookup a ((k, v) :: rest) = if a = k then some v else List.lookup a rest := by
  by_cases hk : a = k
  · simp [List.lookup, hk]
  · simp [List.lookup, beq_false_of_ne hk, hk]

theorem removeKey_cons {β : Type} (seq k : Nat) (v : β) (rest : List (Nat × β)) :
    removeKey seq ((k, v) :: rest) =
      if k = seq then removeKey seq rest else (k, v) :: removeKey seq rest := by
  by_cases hk : k = seq
  · simp [removeKey, List.filter_cons, hk]
  · simp [removeKey, List.filter_cons, hk]

theorem removeKey_of_lookup_none {β : Type} (seq : Nat) (p : List (Nat × β))
    (h : List.lookup seq p = none) : removeKey seq p = p := by
  induction p with
  | nil => rfl
  | cons kv rest ih =>
      obtain ⟨k, v⟩ := kv
      rw [lookup_consP] at h
      by_cases hk : seq = k
      · simp [hk] at h
      · rw [if_neg hk] at h
        rw [removeKey_cons, if_neg (fun hc => hk hc.symm), ih h]

theorem lookup_some_key_mem {β : Type} (seq : Nat) (p : List (Nat × β)) (w : β)
    (h : List.lookup seq p = some w) : seq ∈ p.map Prod.fst := by
  induction p with
  | nil => cases h
  | cons kv rest ih =>
      obtain ⟨k, v⟩ := kv
      rw [lookup_consP] at h
      by_cases hk : seq = k
      · simp [hk]
      · rw [if_neg hk] at h
        simp [ih h]

theorem lookup_none_key_not_mem {β : Type} (seq : Nat) (p : List (Nat × β))
    (h : List.lookup seq p = none) : seq ∉ p.map Prod.fst := by
  induction p with
  | nil => simp
  | cons kv rest ih =>
      obtain ⟨k, v⟩ := kv
      rw [lookup_consP] at h
      by_cases hk : seq = k
      · simp [hk] at h
      · rw [if_neg hk] at h
        simp only [List.map_cons, List.mem_cons]
        rintro (hc | hc)
        · exact hk hc
        · exact ih h hc


/-! ## Retransmission engine (`nexstream/src/retransmission.rs`) -/

namespace Retrans

/-- `NexStreamError::RetransmitBufferFull`. -/
inductive NexError where
  | retransmitBufferFull (inflight max : Nat)
  deriving DecidableEq, Repr

/-- Maximum number of retransmission attempts before giving up. -/
def MAX_RETRIES : Nat := 3

/-- Default maximum bytes held in the retransmit buffer (64 MiB). -/
def MAX_INFLIGHT_BYTES : Nat := 64 * 1024 * 1024

/-- `usize::MAX` on a 64-bit target. -/
def USIZE_MAX : Nat := 18446744073709551615

/-- An entry in the retransmission queue (`RetransmitEntry`); times are
nanoseconds (`Instant` / `Duration`). -/
structure RetransmitEntry where
  seq : Nat
  data : List Nat
  retransmit_at : Nat
  rto : Nat
  attempts : Nat
  deriving DecidableEq, Repr

/-- A packet that exceeded its maximum retransmission attempts (`GivenUp`). -/
structure GivenUp where
  seq : Nat
  data : List Nat
  attempts : Nat
  deriving DecidableEq, Repr

/-- A packet ready for retransmission (`RetransmitPacket`). -/
structure RetransmitPacket where
  seq : Nat
  data : List Nat
  deriving DecidableEq, Repr

/-- `RetransmissionEngine`.  The `BinaryHeap` is modelled as the list of its
entries; `poll_expired` pops an entry with minimal `retransmit_at` (the
heap's tie-break among equal keys is unspecified in the source). -/
structure Engine where
  heap : List RetransmitEntry
  pending : List (Nat × Nat)
  inflight_bytes : Nat
  max_bytes : Nat
  deriving DecidableEq, Repr

/-- `RetransmissionEngine::new`. -/
def Engine.new : Engine := ⟨[], [], 0, MAX_INFLIGHT_BYTES⟩

/-- `RetransmissionEngine::with_max_bytes`. -/
def Engine.withMaxBytes (m : Nat) : Engine := ⟨[], [], 0, m⟩

/-- `RetransmissionEngine::push`; `now` is the `Instant::now()` the source
reads when the entry is enqueued.  `checked_add(..).unwrap_or(usize::MAX)`
is the saturating sum. -/
def Engine.push (e : Engine) (now seq : Nat) (data : List Nat) (rto : Nat) :
    Except NexError Engine :=
  let newInflight := min (e.inflight_bytes + data.length) USIZE_MAX
  if e.max_bytes < newInflight then
    .error (.retransmitBufferFull e.inflight_bytes e.max_bytes)
  else
    .ok { e with
      inflight_bytes := newInflight
      pending := insertKey seq data.length e.pending
      heap := ⟨seq, data, now + rto, rto, 0⟩ :: e.heap }

/-- `RetransmissionEngine::on_ack`: returns whether the packet was still
pending, with the updated engine.  `saturating_sub` is `Nat` subtraction. -/
def Engine.onAck (e : Engine) (seq : Nat) : Bool × Engine :=
  match List.lookup seq e.pending with
  | some len =>
      (true, { e with pending := removeKey seq e.pending
                      inflight_bytes := e.inflight_bytes - len })
  | none => (false, e)

/-- Pop an entry with minimal `retransmit_at` from the heap list (the
`BinaryHeap` pop under the reversed ordering; first minimal on ties). -/
def popEarliest : List RetransmitEntry → Option (RetransmitEntry × List RetransmitEntry)
  | [] => none
  | x :: xs =>
      match popEarliest xs with
      | none => some (x, [])
      | some (m, rest) =>
          if x.retransmit_at ≤ m.retransmit_at then some (x, xs)
          else some (m, x :: rest)

theorem popEarliest_perm (h : List RetransmitEntry) (e : RetransmitEntry)
    (rest : List RetransmitEntry) (hpop : popEarliest h = some (e, rest)) :
    h.Perm (e :: rest) := by
  induction h generalizing e rest with
  | nil => cases hpop
  | cons x xs ih =>
      cases hxs : popEarliest xs with
      | none =>
          cases xs with
          | nil =>
              simp only [popEarliest] at hpop
              simp at hpop
              obtain ⟨rfl, rfl⟩ := hpop
              exact List.Perm.refl _
          | cons y ys =>
              exfalso
              cases hys : popEarliest ys with
              | none => simp only [popEarliest, hys] at hxs; cases hxs
              | some me =>
                  simp only [popEarliest, hys] at hxs
                  split at hxs <;> cases hxs
      | some me =>
          obtain ⟨m, mrest⟩ := me
          simp only [popEarliest, hxs] at hpop
          by_cases hle : x.retransmit_at ≤ m.retransmit_at
          · rw [if_pos hle] at hpop
            simp at hpop
            obtain ⟨rfl, rfl⟩ := hpop
            exact List.Perm.refl _
          · rw [if_neg hle] at hpop
            simp at hpop
            obtain ⟨rfl, rfl⟩ := hpop
            exact ((ih m mrest hxs).cons x).trans (List.Perm.swap m x mrest)

/-- Termination measure for the `poll_expired` loop: each iteration removes
an entry, or replaces it by one with one more attempt (bounded by
`MAX_RETRIES`). -/
def heapMeasure (h : List RetransmitEntry) : Nat :=
  h.length + (h.map fun en => MAX_RETRIES - en.attempts).sum

theorem heapMeasure_perm (h h2 : List RetransmitEntry) (hp : h.Perm h2) :
    heapMeasure h = heapMeasure h2 := by
  unfold heapMeasure
  rw [hp.length_eq, (hp.map fun en => MAX_RETRIES - en.attempts).sum_eq]

/-- `RetransmissionEngine::poll_expired`: repeatedly pop the earliest
expired entry; skip stale (acked) entries, give up past `MAX_RETRIES`,
otherwise emit and re-enqueue with doubled RTO. -/
def Engine.pollExpired (e : Engine) (now : Nat) :
    (List RetransmitPacket × List GivenUp) × Engine :=
  match hpop : popEarliest e.heap with
  | none => (([], []), e)
  | some (entry, rest) =>
      if now < entry.retransmit_at then
        (([], []), e)
      else if List.lookup entry.seq e.pending = none then
        Engine.pollExpired { e with heap := rest } now
      else if MAX_RETRIES ≤ entry.attempts then
        let len := (List.lookup entry.seq e.pending).getD 0
        let res := Engine.pollExpired
          { e with heap := rest
                   pending := removeKey entry.seq e.pending
                   inflight_bytes := e.inflight_bytes - len } now
        ((res.1.1, ⟨entry.seq, entry.data, entry.attempts⟩ :: res.1.2), res.2)
      else
        let newRto := entry.rto * 2
        let res := Engine.pollExpired
          { e with heap := RetransmitEntry.mk entry.seq entry.data (now + newRto)
                     newRto (entry.attempts + 1) :: rest } now
        ((RetransmitPacket.mk entry.seq entry.data :: res.1.1, res.1.2), res.2)
  termination_by heapMeasure e.heap
  decreasing_by
  · have hp := heapMeasure_perm _ _ (popEarliest_perm e.heap entry rest hpop)
    simp only [heapMeasure, List.length_cons, List.map_cons, List.sum_cons] at hp ⊢
    omega
  · have hp := heapMeasure_perm _ _ (popEarliest_perm e.heap entry rest hpop)
    simp only [heapMeasure, List.length_cons, List.map_cons, List.sum_cons] at hp ⊢
    omega
  · have hp := heapMeasure_perm _ _ (popEarliest_perm e.heap entry rest hpop)
    simp only [heapMeasure, List.length_cons, List.map_cons, List.sum_cons] at hp ⊢
    rename_i hretries
    simp only [MAX_RETRIES] at *
    omega

/-- Sum of the payload sizes recorded in the pending map. -/
def pendingSum (p : List (Nat × Nat)) : Nat := (p.map Prod.snd).sum

theorem pendingSum_removeKey (seq len : Nat) (p : List (Nat × Nat))
    (hnd : (p.map Prod.fst).Nodup) (h : List.lookup seq p = some len) :
    pendingSum (removeKey seq p) + len = pendingSum p := by
  induction p with
  | nil => cases h
  | cons kv rest ih =>
      obtain ⟨k, v⟩ := kv
      simp only [List.map_cons, List.nodup_cons] at hnd
      rw [lookup_consP] at h
      by_cases hk : seq = k
      · subst hk
        rw [if_pos rfl] at h
        have hv : v = len := by
          injection h with h1
        subst hv
        have hlk : List.lookup seq rest = none := by
          cases hlk : List.lookup seq rest with
          | none => rfl
          | some w =>
              exact absurd (lookup_some_key_mem seq rest w hlk) hnd.1
        rw [removeKey_cons, if_pos rfl, removeKey_of_lookup_none seq rest hlk]
        simp [pendingSum]
        omega
      · rw [if_neg hk] at h
        rw [removeKey_cons, if_neg (fun hc => hk hc.symm)]
        simp only [pendingSum, List.map_cons, List.sum_cons]
        have hrec := ih hnd.2 h
        simp only [pendingSum] at hrec
        omega

/-- Engine invariant used for the C4 induction: the pending-map payload
sizes sum to `inflight_bytes`, keys are unique, and the byte counters are
within the configured cap (which is below `usize::MAX`). -/
def Inv (e : Engine) : Prop :=
  pendingSum e.pending = e.inflight_bytes ∧
  (e.pending.map Prod.fst).Nodup ∧
  e.inflight_bytes ≤ e.max_bytes ∧
  e.max_bytes < USIZE_MAX

/-- One engine call of the C4 call sequence. -/
inductive Op where
  | push (now seq : Nat) (data : List Nat) (rto : Nat)
  | ack (seq : Nat)
  | poll (now : Nat)
  deriving DecidableEq, Repr

/-- Apply one call; a failed `push` leaves the engine unchanged. -/
def Engine.applyOp (e : Engine) : Op → Engine
  | .push now seq data rto =>
      match e.push now seq data rto with
      | .ok e2 => e2
      | .error _ => e
  | .ack seq => (e.onAck seq).2
  | .poll now => (e.pollExpired now).2

/-- Run a call sequence. -/
def Engine.run (e : Engine) (ops : List Op) : Engine := ops.foldl Engine.applyOp e

/-- Every `push` in the sequence targets a seq not currently pending. -/
def FreshPushes : Engine → List Op → Prop
  | _, [] => True
  | e, op :: rest =>
      (match op with
       | .push _ seq _ _ => List.lookup seq e.pending = none
       | _ => True) ∧ FreshPushes (e.applyOp op) rest

theorem push_inv (e : Engine) (now seq : Nat) (data : List Nat) (rto : Nat)
    (hinv : Inv e) (hfresh : List.lookup seq e.pending = none) :
    Inv (e.applyOp (.push now seq data rto)) ∧
      (e.applyOp (.push now seq data rto)).max_bytes = e.max_bytes := by
  obtain ⟨hsum, hnd, hle, hmax⟩ := hinv
  simp only [Engine.applyOp, Engine.push]
  by_cases hfull : e.max_bytes < min (e.inflight_bytes + data.length) USIZE_MAX
  · rw [if_pos hfull]
    exact ⟨⟨hsum, hnd, hle, hmax⟩, rfl⟩
  · rw [if_neg hfull]
    have hmin : min (e.inflight_bytes + data.length) USIZE_MAX =
        e.inflight_bytes + data.length := by omega
    refine ⟨⟨?_, ?_, ?_, hmax⟩, rfl⟩
    · show pendingSum (insertKey seq data.length e.pending) =
        min (e.inflight_bytes + data.length) USIZE_MAX
      rw [hmin]
      simp only [insertKey, removeKey_of_lookup_none seq e.pending hfresh,
        pendingSum, List.map_cons, List.sum_cons]
      simp only [pendingSum] at hsum
      omega
    · show ((insertKey seq data.length e.pending).map Prod.fst).Nodup
      simp only [insertKey, removeKey_of_lookup_none seq e.pending hfresh,
        List.map_cons, List.nodup_cons]
      exact ⟨lookup_none_key_not_mem seq e.pending hfresh, hnd⟩
    · show min (e.inflight_bytes + data.length) USIZE_MAX ≤ e.max_bytes
      omega

theorem onAck_inv (e : Engine) (seq : Nat) (hinv : Inv e) :
    Inv (e.applyOp (.ack seq)) ∧ (e.applyOp (.ack seq)).max_bytes = e.max_bytes := by
  obtain ⟨hsum, hnd, hle, hmax⟩ := hinv
  simp only [Engine.applyOp, Engine.onAck]
  cases hlk : List.lookup seq e.pending with
  | none => exact ⟨⟨hsum, hnd, hle, hmax⟩, rfl⟩
  | some len =>
      have hrem := pendingSum_removeKey seq len e.pending hnd hlk
      refine ⟨⟨?_, ?_, ?_, hmax⟩, rfl⟩
      · show pendingSum (removeKey seq e.pending) = e.inflight_bytes - len
        omega
      · show ((removeKey seq e.pending).map Prod.fst).Nodup
        exact List.Nodup.sublist (List.Sublist.map Prod.fst (List.filter_sublist _)) hnd
      · show e.inflight_bytes - len ≤ e.max_bytes
        omega

theorem pollExpired_none_eq (e : Engine) (now : Nat)
    (hpop : popEarliest e.heap = none) : e.pollExpired now = (([], []), e) := by
  rw [Engine.pollExpired.eq_def]
  split
  · rfl
  · next entry rest heq => rw [hpop] at heq; cases heq

theorem pollExpired_some_eq (e : Engine) (now : Nat) (entry : RetransmitEntry)
    (rest : List RetransmitEntry) (hpop : popEarliest e.heap = some (entry, rest)) :
    e.pollExpired now =
      if now < entry.retransmit_at then (([], []), e)
      else if List.lookup entry.seq e.pending = none then
        Engine.pollExpired { e with heap := rest } now
      else if MAX_RETRIES ≤ entry.attempts then
        let len := (List.lookup entry.seq e.pending).getD 0
        let res := Engine.pollExpired
          { e with heap := rest
                   pending := removeKey entry.seq e.pending
                   inflight_bytes := e.inflight_bytes - len } now
        ((res.1.1, ⟨entry.seq, entry.data, entry.attempts⟩ :: res.1.2), res.2)
      else
        let newRto := entry.rto * 2
        let res := Engine.pollExpired
          { e with heap := RetransmitEntry.mk entry.seq entry.data (now + newRto)
                     newRto (entry.attempts + 1) :: rest } now
        ((RetransmitPacket.mk entry.seq entry.data :: res.1.1, res.1.2), res.2) := by
  rw [Engine.pollExpired.eq_def]
  split
  · next heq => rw [hpop] at heq; cases heq
  · next entry2 rest2 heq =>
      rw [hpop] at heq
      injection heq with h1
      injection h1 with h2 h3
      subst h2
      subst h3
      rfl

theorem pollExpired_inv (e : Engine) (now : Nat) :
    Inv e → Inv ((e.pollExpired now).2) ∧ ((e.pollExpired now).2).max_bytes = e.max_bytes := by
  induction e, now using Engine.pollExpired.induct with
  | case1 e now hpop =>
      intro hinv
      rw [pollExpired_none_eq e now hpop]
      exact ⟨hinv, rfl⟩
  | case2 e now entry rest hpop hlt =>
      intro hinv
      rw [pollExpired_some_eq e now entry rest hpop, if_pos hlt]
      exact ⟨hinv, rfl⟩
  | case3 e now entry rest hpop hlt hstale ih =>
      intro hinv
      rw [pollExpired_some_eq e now entry rest hpop, if_neg hlt, if_pos hstale]
      exact ih hinv
  | case4 e now entry rest hpop hlt hstale hretries len ih =>
      intro hinv
      obtain ⟨hsum, hnd, hle, hmax⟩ := hinv
      cases hlk : List.lookup entry.seq e.pending with
      | none => exact absurd hlk hstale
      | some len =>
          have hrem := pendingSum_removeKey entry.seq len e.pending hnd hlk
          rw [pollExpired_some_eq e now entry rest hpop, if_neg hlt, if_neg hstale,
            if_pos hretries]
          refine ih ⟨?_, ?_, ?_, hmax⟩
          · show pendingSum (removeKey entry.seq e.pending) =
              e.inflight_bytes - (List.lookup entry.seq e.pending).getD 0
            rw [hlk]
            simp only [Option.getD_some]
            omega
          · show ((removeKey entry.seq e.pending).map Prod.fst).Nodup
            exact List.Nodup.sublist (List.Sublist.map Prod.fst (List.filter_sublist _)) hnd
          · show e.inflight_bytes - (List.lookup entry.seq e.pending).getD 0 ≤ e.max_bytes
            exact Nat.le_trans (Nat.sub_le _ _) hle
  | case5 e now entry rest hpop hlt hstale hretries newRto ih =>
      intro hinv
      rw [pollExpired_some_eq e now entry rest hpop, if_neg hlt, if_neg hstale,
        if_neg hretries]
      exact ih hinv

theorem applyOp_inv (e : Engine) (op : Op) (hinv : Inv e)
    (hfresh : match op with
      | .push _ seq _ _ => List.lookup seq e.pending = none
      | _ => True) :
    Inv (e.applyOp op) ∧ (e.applyOp op).max_bytes = e.max_bytes := by
  cases op with
  | push now seq data rto => exact push_inv e now seq data rto hinv hfresh
  | ack seq => exact onAck_inv e seq hinv
  | poll now => exact pollExpired_inv e now hinv

theorem run_inv (ops : List Op) (e : Engine) (hinv : Inv e) (hf : FreshPushes e ops) :
    Inv (e.run ops) := by
  induction ops generalizing e with
  | nil => exact hinv
  | cons op rest ih =>
      obtain ⟨hop, hrest⟩ := hf
      exact ih (e.applyOp op) (applyOp_inv e op hinv hop).1 hrest

theorem freshPushes_append_left (e : Engine) (pre suf : List Op)
    (hf : FreshPushes e (pre ++ suf)) : FreshPushes e pre := by
  induction pre generalizing e with
  | nil => trivial
  | cons op rest ih => exact ⟨hf.1, ih _ hf.2⟩

end Retrans

/-- C4 (amended): starting from `with_max_bytes m` with `m < usize::MAX`
(as with `new`'s 64 MiB default), for every call sequence in which each
`push` targets a seq not currently pending, the sum of the payload sizes
recorded in the pending map equals `inflight_bytes` after every call
(i.e. after every prefix of the sequence). -/
theorem retrans_inflight_eq_pending_sum (m : Nat) (pre suf : List Retrans.Op)
    (hm : m < Retrans.USIZE_MAX)
    (hf : Retrans.FreshPushes (Retrans.Engine.withMaxBytes m) (pre ++ suf)) :
    Retrans.pendingSum ((Retrans.Engine.withMaxBytes m).run pre).pending =
      ((Retrans.Engine.withMaxBytes m).run pre).inflight_bytes :=
  (Retrans.run_inv pre _ ⟨rfl, by simp [Retrans.Engine.withMaxBytes], Nat.zero_le _, hm⟩
    (Retrans.freshPushes_append_left _ pre suf hf)).1

/-- Witness for C4 (amended): one fresh push of a 2-byte payload under a
100-byte cap; the pending sum and `inflight_bytes` agree. -/
theorem retrans_inflight_eq_pending_sum_witness :
    Retrans.pendingSum ((Retrans.Engine.withMaxBytes 100).run
        [.push 0 1 [5, 5] 10]).pending =
      ((Retrans.Engine.withMaxBytes 100).run [.push 0 1 [5, 5] 10]).inflight_bytes :=
  retrans_inflight_eq_pending_sum 100 [.push 0 1 [5, 5] 10] []
    (by decide) ⟨rfl, trivial⟩

/-- C4 counterexample: two `push` calls with the same seq 1 and a 5-byte
payload.  `push` overwrites the pending entry but adds the payload length
to `inflight_bytes` again: the pending map sums to 5 while
`inflight_bytes` is 10, so the claimed invariant fails over unrestricted
call sequences. -/
theorem retrans_duplicate_push_counterexample :
    Retrans.pendingSum ((Retrans.Engine.new).run
        [.push 0 1 [0, 0, 0, 0, 0] 10, .push 0 1 [0, 0, 0, 0, 0] 10]).pending = 5 ∧
      ((Retrans.Engine.new).run
        [.push 0 1 [0, 0, 0, 0, 0] 10, .push 0 1 [0, 0, 0, 0, 0] 10]).inflight_bytes
        = 10 := by
  decide

/-- C10: `on_ack` called with a seq that is not in the pending map returns
`false` and leaves the engine exactly as it was (pending map,
`inflight_bytes`, and heap all unchanged). -/
theorem retrans_onAck_absent_noop (e : Retrans.Engine) (seq : Nat)
    (h : List.lookup seq e.pending = none) :
    e.onAck seq = (false, e) := by
  simp [Retrans.Engine.onAck, h]

/-- Witness for C10 at the fresh engine and seq 1. -/
theorem retrans_onAck_absent_noop_witness :
    Retrans.Engine.new.onAck 1 = (false, Retrans.Engine.new) :=
  retrans_onAck_absent_noop Retrans.Engine.new 1 rfl

/-! ## RTT estimator (`strandstream/src/rtt.rs`); durations in nanoseconds -/

namespace Rtt

/-- Minimum RTO: 200 ms. -/
def MIN_RTO : Nat := 200000000

/-- Maximum RTO: 60 s. -/
def MAX_RTO : Nat := 60000000000

/-- Granularity floor for the variance component: 1 ms. -/
def GRANULARITY : Nat := 1000000

/-- `RttEstimator`. -/
structure RttEstimator where
  srtt : Option Nat
  rttvar : Option Nat
  rto : Nat
  deriving DecidableEq, Repr

/-- `RttEstimator::new`: initial RTO of 1 second. -/
def RttEstimator.new : RttEstimator := ⟨none, none, 1000000000⟩

/-- `RttEstimator::recompute_rto`: `srtt + max(1ms, 4*rttvar)` clamped to
`[MIN_RTO, MAX_RTO]` (Rust `clamp lo hi = min (max x lo) hi`). -/
def RttEstimator.recomputeRto (e : RttEstimator) : RttEstimator :=
  match e.srtt, e.rttvar with
  | some srtt, some rttvar =>
      let varComponent := max GRANULARITY (rttvar * 4)
      { e with rto := min (max (srtt + varComponent) MIN_RTO) MAX_RTO }
  | _, _ => e

/-- `RttEstimator::update`.  Duration arithmetic is exact in nanoseconds
with flooring integer division. -/
def RttEstimator.update (e : RttEstimator) (sample : Nat) : RttEstimator :=
  let e2 :=
    match e.srtt with
    | none => { e with srtt := some sample, rttvar := some (sample / 2) }
    | some srtt =>
        let diff := if sample < srtt then srtt - sample else sample - srtt
        let rttvar := e.rttvar.getD diff
        { e with srtt := some ((srtt * 7 + sample) / 8)
                 rttvar := some ((rttvar * 3 + diff) / 4) }
  e2.recomputeRto

/-- Feed a sequence of samples from the initial state. -/
def RttEstimator.run (e : RttEstimator) (samples : List Nat) : RttEstimator :=
  samples.foldl RttEstimator.update e

theorem update_rto_range (e : RttEstimator) (sample : Nat) :
    MIN_RTO ≤ (e.update sample).rto ∧ (e.update sample).rto ≤ MAX_RTO := by
  cases hs : e.srtt with
  | none =>
      simp only [RttEstimator.update, hs, RttEstimator.recomputeRto]
      constructor <;> simp [MIN_RTO, MAX_RTO]
  | some srtt =>
      simp only [RttEstimator.update, hs, RttEstimator.recomputeRto]
      constructor <;> simp [MIN_RTO, MAX_RTO]

theorem run_rto_range (samples : List Nat) (e : RttEstimator)
    (h1 : MIN_RTO ≤ e.rto) (h2 : e.rto ≤ MAX_RTO) :
    MIN_RTO ≤ (e.run samples).rto ∧ (e.run samples).rto ≤ MAX_RTO := by
  induction samples generalizing e with
  | nil => exact ⟨h1, h2⟩
  | cons sample rest ih =>
      have hstep := update_rto_range e sample
      exact ih (e.update sample) hstep.1 hstep.2

end Rtt

/-- C8: from `RttEstimator::new`, the first sample sets
`SRTT := sample, RTTVAR := sample / 2`; each later sample sets
`RTTVAR := (3*RTTVAR + |SRTT - sample|) / 4` then
`SRTT := (7*SRTT + sample) / 8` using the pre-update SRTT in both; after
any update the RTO equals `SRTT + max(1 ms, 4*RTTVAR)` clamped into
`[200 ms, 60 s]`; and the RTO (including the 1 s initial value) always
lies in `[200 ms, 60 s]`.  Durations are nanosecond integers, divisions
flooring, exactly as Rust `Duration` arithmetic computes them. -/
theorem rtt_estimator_update_equations_and_rto_clamped
    (samples : List Nat) (sample : Nat) :
    (let st := Rtt.RttEstimator.new.run samples
     let st2 := st.update sample
     (st.srtt = none → st2.srtt = some sample ∧ st2.rttvar = some (sample / 2)) ∧
     (∀ s v, st.srtt = some s → st.rttvar = some v →
        st2.rttvar = some ((v * 3 + (if sample < s then s - sample else sample - s)) / 4) ∧
        st2.srtt = some ((s * 7 + sample) / 8)) ∧
     (∀ s v, st2.srtt = some s → st2.rttvar = some v →
        st2.rto = min (max (s + max Rtt.GRANULARITY (v * 4)) Rtt.MIN_RTO) Rtt.MAX_RTO)) ∧
    Rtt.MIN_RTO ≤ (Rtt.RttEstimator.new.run samples).rto ∧
      (Rtt.RttEstimator.new.run samples).rto ≤ Rtt.MAX_RTO := by
  refine ⟨⟨?_, ?_, ?_⟩, Rtt.run_rto_range samples Rtt.RttEstimator.new
    (by simp [Rtt.RttEstimator.new, Rtt.MIN_RTO]) (by simp [Rtt.RttEstimator.new,
      Rtt.MIN_RTO, Rtt.MAX_RTO])⟩
  · intro hnone
    simp only [Rtt.RttEstimator.update, hnone, Rtt.RttEstimator.recomputeRto]
    simp
  · intro s v hs hv
    simp only [Rtt.RttEstimator.update, hs, hv, Option.getD_some,
      Rtt.RttEstimator.recomputeRto]
    simp
  · intro s v hs hv
    cases hsrtt : (Rtt.RttEstimator.new.run samples).srtt with
    | none =>
        simp only [Rtt.RttEstimator.update, hsrtt, Rtt.RttEstimator.recomputeRto] at hs hv ⊢
        simp at hs hv
        subst hs
        subst hv
        rfl
    | some s0 =>
        simp only [Rtt.RttEstimator.update, hsrtt, Rtt.RttEstimator.recomputeRto] at hs hv ⊢
        simp at hs hv
        subst hs
        subst hv
        rfl

/-- Witness for C8: samples 100 ms then 120 ms. -/
theorem rtt_estimator_update_equations_and_rto_clamped_witness :
    (Rtt.RttEstimator.new.run [100000000]).update 120000000 =
      ⟨some 102500000, some 42500000, 272500000⟩ ∧
    Rtt.MIN_RTO ≤ (Rtt.RttEstimator.new.run [100000000]).rto ∧
      (Rtt.RttEstimator.new.run [100000000]).rto ≤ Rtt.MAX_RTO := by
  have h := rtt_estimator_update_equations_and_rto_clamped [100000000] 120000000
  exact ⟨by decide, h.2⟩

/-! ## Loss detector (`nexstream/src/loss_detection.rs`); times in nanoseconds -/

theorem mem_iff_lookup {β : Type} (p : List (Nat × β)) (hnd : (p.map Prod.fst).Nodup)
    (s : Nat) (t : β) : (s, t) ∈ p ↔ List.lookup s p = some t := by
  induction p with
  | nil => simp
  | cons kv rest ih =>
      obtain ⟨k, v⟩ := kv
      simp only [List.map_cons, List.nodup_cons] at hnd
      rw [lookup_consP]
      by_cases hk : s = k
      · subst hk
        rw [if_pos rfl]
        simp only [List.mem_cons, Prod.mk.injEq]
        constructor
        · rintro (⟨-, rfl⟩ | hmem)
          · rfl
          · exact absurd (List.mem_map.mpr ⟨(s, t), hmem, rfl⟩) hnd.1
        · intro h
          injection h with h
          subst h
          simp
      · rw [if_neg hk]
        simp only [List.mem_cons, Prod.mk.injEq]
        rw [ih hnd.2]
        constructor
        · rintro (⟨rfl, -⟩ | h)
          · exact absurd rfl hk
          · exact h
        · exact Or.inr

theorem lookup_eq_none_of_not_mem {β : Type} (s : Nat) (p : List (Nat × β))
    (h : s ∉ p.map Prod.fst) : List.lookup s p = none := by
  induction p with
  | nil => rfl
  | cons kv rest ih =>
      obtain ⟨k, v⟩ := kv
      simp only [List.map_cons, List.mem_cons] at h
      rw [lookup_consP, if_neg (fun hc => h (Or.inl hc))]
      exact ih fun hc => h (Or.inr hc)

namespace Loss

/-- Number of later-acknowledged packets before a packet is declared lost. -/
def PACKET_THRESHOLD : Nat := 3

/-- Minimum time threshold for loss detection: 1 ms. -/
def MIN_TIME_THRESHOLD : Nat := 1000000

/-- `LossDetector`: `BTreeMap<u64, Instant>` of sent packets (association
list with unique keys) and the largest acknowledged seq. -/
structure LossDetector where
  sent_packets : List (Nat × Nat)
  largest_acked : Option Nat
  deriving DecidableEq, Repr

/-- `LossDetector::new`. -/
def LossDetector.new : LossDetector := ⟨[], none⟩

/-- The single updated `largest_acked` value used for all determinations of
one ACK event: `max(previous, ack_seq)`. -/
def newLargest : Option Nat → Nat → Nat
  | some prev, ack_seq => max prev ack_seq
  | none, ack_seq => ack_seq

/-- The loss condition for one still-pending packet. -/
def lostP (largest threshold now : Nat) (kv : Nat × Nat) : Bool :=
  decide (largest ≥ kv.1 + PACKET_THRESHOLD ∨ now - kv.2 > threshold)

/-- The `for seq in seqs` loop: split the map snapshot into the entries
kept and the seqs declared lost (in iteration order).  Each iteration sees
its own entry still present, exactly as the source's `get` does. -/
def collectLost (largest threshold now : Nat) :
    List (Nat × Nat) → List (Nat × Nat) × List Nat
  | [] => ([], [])
  | (seq, sentAt) :: rest =>
      let r := collectLost largest threshold now rest
      if largest ≥ seq + PACKET_THRESHOLD ∨ now - sentAt > threshold then
        (r.1, seq :: r.2)
      else ((seq, sentAt) :: r.1, r.2)

/-- `LossDetector::on_packet_sent` (BTreeMap insert). -/
def LossDetector.onPacketSent (d : LossDetector) (seq sent_time : Nat) : LossDetector :=
  { d with sent_packets := insertKey seq sent_time d.sent_packets }

/-- `LossDetector::on_ack_received`: remove the acked seq, update
`largest_acked` once, compute `max(srtt*9/8, 1 ms)` once, then declare
lost (and remove) every still-pending seq meeting the packet or time
threshold, returning the batch. -/
def LossDetector.onAckReceived (d : LossDetector) (ack_seq srtt now : Nat) :
    List Nat × LossDetector :=
  let sent1 := removeKey ack_seq d.sent_packets
  let largest := newLargest d.largest_acked ack_seq
  let threshold := max (srtt * 9 / 8) MIN_TIME_THRESHOLD
  let r := collectLost largest threshold now sent1
  (r.2, ⟨r.1, some largest⟩)

theorem collectLost_eq (largest threshold now : Nat) (l : List (Nat × Nat)) :
    collectLost largest threshold now l =
      (l.filter fun kv => !(lostP largest threshold now kv),
       (l.filter (lostP largest threshold now)).map Prod.fst) := by
  induction l with
  | nil => rfl
  | cons kv rest ih =>
      obtain ⟨seq, sentAt⟩ := kv
      simp only [collectLost, ih, List.filter_cons]
      by_cases hc : largest ≥ seq + PACKET_THRESHOLD ∨ now - sentAt > threshold
      · rw [if_pos hc]
        simp [lostP, hc]
      · rw [if_neg hc]
        simp [lostP, hc]
end Loss

/-- C7: in a single `on_ack_received(ack_seq, srtt, now)` call on any
detector state (with the `BTreeMap`'s unique keys), a seq `s` that is
still pending after `ack_seq` is removed appears in the returned loss
batch iff `largest >= s + 3` or `now - sent_at(s) > max(srtt*9/8, 1 ms)`,
where `largest = max(previous largest_acked, ack_seq)` is the single
updated value used throughout; and every seq in the batch is removed from
the sent-packet map. -/
theorem loss_detector_on_ack_membership (d : Loss.LossDetector)
    (ack_seq srtt now s : Nat)
    (hnd : (d.sent_packets.map Prod.fst).Nodup) :
    (s ∈ (d.onAckReceived ack_seq srtt now).1 ↔
      ∃ t, List.lookup s (removeKey ack_seq d.sent_packets) = some t ∧
        (Loss.newLargest d.largest_acked ack_seq ≥ s + Loss.PACKET_THRESHOLD ∨
          now - t > max (srtt * 9 / 8) Loss.MIN_TIME_THRESHOLD)) ∧
    (s ∈ (d.onAckReceived ack_seq srtt now).1 →
      List.lookup s (d.onAckReceived ack_seq srtt now).2.sent_packets = none) := by
  have hnd1 : ((removeKey ack_seq d.sent_packets).map Prod.fst).Nodup :=
    List.Nodup.sublist (List.Sublist.map Prod.fst (List.filter_sublist _)) hnd
  simp only [Loss.LossDetector.onAckReceived, Loss.collectLost_eq]
  constructor
  · constructor
    · intro hmem
      obtain ⟨⟨s2, t⟩, hmem2, rfl⟩ := List.mem_map.mp hmem
      obtain ⟨hmem3, hp⟩ := List.mem_filter.mp hmem2
      exact ⟨t, (mem_iff_lookup _ hnd1 s2 t).mp hmem3, by simpa [Loss.lostP] using hp⟩
    · rintro ⟨t, hlk, hcond⟩
      refine List.mem_map.mpr ⟨(s, t), List.mem_filter.mpr
        ⟨(mem_iff_lookup _ hnd1 s t).mpr hlk, ?_⟩, rfl⟩
      simpa [Loss.lostP] using hcond
  · intro hmem
    obtain ⟨⟨s2, t⟩, hmem2, rfl⟩ := List.mem_map.mp hmem
    obtain ⟨hmem3, hp⟩ := List.mem_filter.mp hmem2
    apply lookup_eq_none_of_not_mem
    intro hc
    obtain ⟨⟨s3, t2⟩, hmem4, hfst2⟩ := List.mem_map.mp hc
    obtain ⟨hmem5, hnp⟩ := List.mem_filter.mp hmem4
    have hs3 : s3 = s2 := hfst2
    subst hs3
    have ht2 : t2 = t := by
      have h1 := (mem_iff_lookup _ hnd1 s3 t2).mp hmem5
      have h2 := (mem_iff_lookup _ hnd1 s3 t).mp hmem3
      rw [h1] at h2
      exact Option.some.inj h2
    subst ht2
    rw [hp] at hnp
    simp at hnp

/-- Witness for C7: detector with packets 0 and 5 sent at time 0, ACK of
seq 5; packet 0 is declared lost by the packet threshold. -/
theorem loss_detector_on_ack_membership_witness :
    ((0 ∈ ((⟨[(0, 0), (5, 0)], none⟩ : Loss.LossDetector).onAckReceived 5 8000000 100).1 ↔
      ∃ t, List.lookup 0 (removeKey 5 ([(0, 0), (5, 0)] :
          List (Nat × Nat))) = some t ∧
        (Loss.newLargest none 5 ≥ 0 + Loss.PACKET_THRESHOLD ∨
          100 - t > max (8000000 * 9 / 8) Loss.MIN_TIME_THRESHOLD)) ∧
    (0 ∈ ((⟨[(0, 0), (5, 0)], none⟩ : Loss.LossDetector).onAckReceived 5 8000000 100).1 →
      List.lookup 0
        ((⟨[(0, 0), (5, 0)], none⟩ : Loss.LossDetector).onAckReceived
          5 8000000 100).2.sent_packets = none)) :=
  loss_detector_on_ack_membership ⟨[(0, 0), (5, 0)], none⟩ 5 8000000 100 0 (by decide)

/-! ## Stream state machine and multiplexer
(`strandstream/src/stream.rs`, `strandstream/src/mux.rs`).  Only the
lifecycle state is modelled per stream: the mode-specific senders,
receivers and byte buffers never affect the stream's `state` field or the
mux's stream count, which is all the claims here concern. -/

namespace Mux

/-- `TransportMode`. -/
inductive TransportMode where
  | reliableOrdered | reliableUnordered | bestEffort | probabilistic
  deriving DecidableEq, Repr

/-- `StreamState` (Rust `Open` is `opened` here; `open` is a Lean keyword). -/
inductive StreamState where
  | idle | opened | halfClosedLocal | halfClosedRemote | closed
  deriving DecidableEq, Repr

/-- The `Display` strings used in `InvalidStateTransition` errors. -/
def StreamState.name : StreamState → String
  | .idle => "Idle"
  | .opened => "Open"
  | .halfClosedLocal => "HalfClosedLocal"
  | .halfClosedRemote => "HalfClosedRemote"
  | .closed => "Closed"

/-- `Stream` (lifecycle fields). -/
structure Stream where
  id : Nat
  mode : TransportMode
  state : StreamState
  deriving DecidableEq, Repr

/-- `Stream::new`: starts Idle. -/
def Stream.new (id : Nat) (mode : TransportMode) : Stream := ⟨id, mode, .idle⟩

/-- `Stream::open`: Idle → Open, otherwise `InvalidStateTransition`. -/
def Stream.openStream (s : Stream) : Except SSError Stream :=
  match s.state with
  | .idle => .ok { s with state := .opened }
  | st => .error (.invalidStateTransition st.name ("Open"))

/-- `Stream::close` (local close). -/
def Stream.close (s : Stream) : Except SSError Stream :=
  match s.state with
  | .opened => .ok { s with state := .halfClosedLocal }
  | .halfClosedRemote => .ok { s with state := .closed }
  | .closed => .ok s
  | .halfClosedLocal => .ok s
  | .idle => .error (.invalidStateTransition ("Idle") ("Closed"))

/-- `Stream::remote_close`. -/
def Stream.remoteClose (s : Stream) : Stream :=
  match s.state with
  | .opened => { s with state := .halfClosedRemote }
  | .halfClosedLocal => { s with state := .closed }
  | _ => s

/-- `Stream::reset`: any state → Closed (buffer clearing not modelled). -/
def Stream.reset (s : Stream) : Stream := { s with state := .closed }

/-- `Multiplexer`: `HashMap<StreamId, Stream>` as an association list, the
next odd client stream id, and the stream cap. -/
structure Multiplexer where
  streams : List (Nat × Stream)
  next_client_stream_id : Nat
  max_streams : Nat
  deriving DecidableEq, Repr

/-- `Multiplexer::new`. -/
def Multiplexer.new (max_streams : Nat) : Multiplexer := ⟨[], 1, max_streams⟩

/-- `Multiplexer::create_stream`: refuse when `streams.len() as u32`
reaches `max_streams`; otherwise allocate the next odd id (u32 wrap),
create the stream, open it, store it and return its id. -/
def Multiplexer.createStream (m : Multiplexer) (mode : TransportMode) :
    Except SSError (Nat × Multiplexer) :=
  if m.max_streams ≤ m.streams.length % 4294967296 then
    .error (.maxStreamsExceeded m.max_streams)
  else
    let id := m.next_client_stream_id
    let next := (m.next_client_stream_id + 2) % 4294967296
    match (Stream.new id mode).openStream with
    | .ok st =>
        .ok (id, { m with streams := insertKey id st m.streams
                          next_client_stream_id := next })
    | .error e => .error e

/-- `Multiplexer::close_stream`. -/
def Multiplexer.closeStream (m : Multiplexer) (stream_id : Nat) :
    Except SSError Multiplexer :=
  match List.lookup stream_id m.streams with
  | none => .error (.streamNotFound stream_id)
  | some st =>
      match st.close with
      | .ok st2 => .ok { m with streams := insertKey stream_id st2 m.streams }
      | .error e => .error e

/-- `Multiplexer::validate_stream_id`: reject the two reserved ids. -/
def validateStreamId (id : Nat) : Except SSError Unit :=
  if id = 0 ∨ id = 4294967295 then .error (.invalidStreamId id) else .ok ()

/-- `Multiplexer::poll` restricted to lifecycle effects: DATA delivery
goes to the mode receiver and never changes the stream's `state`; FIN
calls `remote_close`; RST resets and removes the entry; other frames are
ignored by the mux. -/
def Multiplexer.poll (m : Multiplexer) (f : Frame) : Except SSError Multiplexer :=
  match f with
  | .data stream_id _ _ _ =>
      match validateStreamId stream_id with
      | .error e => .error e
      | .ok _ =>
          match List.lookup stream_id m.streams with
          | none => .error (.streamNotFound stream_id)
          | some _ => .ok m
  | .fin stream_id =>
      match validateStreamId stream_id with
      | .error e => .error e
      | .ok _ =>
          match List.lookup stream_id m.streams with
          | none => .error (.streamNotFound stream_id)
          | some st =>
              .ok { m with streams := insertKey stream_id st.remoteClose m.streams }
  | .rst stream_id _ =>
      match validateStreamId stream_id with
      | .error e => .error e
      | .ok _ =>
          match List.lookup stream_id m.streams with
          | none => .error (.streamNotFound stream_id)
          | some _ => .ok { m with streams := removeKey stream_id m.streams }
  | _ => .ok m

/-- `Multiplexer::active_stream_count`: streams whose state is not Closed
("live" streams in the claim's sense). -/
def Multiplexer.activeStreamCount (m : Multiplexer) : Nat :=
  (m.streams.filter fun kv => kv.2.state ≠ StreamState.closed).length

/-- `Multiplexer::remove_closed_streams`. -/
def Multiplexer.removeClosedStreams (m : Multiplexer) : Multiplexer :=
  { m with streams := m.streams.filter fun kv => kv.2.state ≠ StreamState.closed }

end Mux

/-- The C5 counterexample trace: cap 1; create stream 1, close it locally,
deliver FIN (fully Closed, entry still stored). -/
def c5Trace : Mux.Multiplexer :=
  let m0 := Mux.Multiplexer.new 1
  let m1 := match m0.createStream .bestEffort with
    | .ok x => x.2
    | .error _ => m0
  let m2 := match m1.closeStream 1 with
    | .ok m => m
    | .error _ => m1
  match m2.poll (.fin 1) with
  | .ok m => m
  | .error _ => m2

/-- C5 counterexample: with `max_streams = 1`, create a stream, close it
locally, then deliver FIN so it is fully Closed but still stored.  The
live (non-Closed) count is 0, yet `create_stream` fails with
`MaxStreamsExceeded`, because the source compares the total stored map
size (`streams.len()`), not the live count. -/
theorem mux_create_stream_checks_stored_not_live_counterexample :
    c5Trace.activeStreamCount = 0 ∧ c5Trace.max_streams = 1 ∧
      c5Trace.createStream .bestEffort = .error (.maxStreamsExceeded 1) := by
  decide

/-- C5 (amended): `create_stream` fails with `MaxStreamsExceeded` exactly
when the number of **stored** streams (including fully Closed streams not
yet swept by `remove_closed_streams`) has reached the cap `max_streams`;
otherwise it creates a stream in the Open state, stores it under the next
odd client id, advances the id counter by 2 (u32 wrap), and returns the
id. -/
theorem mux_createStream_spec (m : Mux.Multiplexer) (mode : Mux.TransportMode)
    (hlen : m.streams.length < 4294967296) :
    (m.max_streams ≤ m.streams.length →
      m.createStream mode = .error (.maxStreamsExceeded m.max_streams)) ∧
    (m.streams.length < m.max_streams →
      m.createStream mode = .ok (m.next_client_stream_id,
        { m with
          streams := insertKey m.next_client_stream_id
            (Mux.Stream.mk m.next_client_stream_id mode .opened) m.streams
          next_client_stream_id := (m.next_client_stream_id + 2) % 4294967296 })) := by
  constructor
  · intro hge
    rw [Mux.Multiplexer.createStream, Nat.mod_eq_of_lt hlen, if_pos hge]
  · intro hlt
    rw [Mux.Multiplexer.createStream, Nat.mod_eq_of_lt hlen,
      if_neg (Nat.not_le.mpr hlt)]
    rfl

/-- Witness for C5 (amended) at a fresh two-stream mux. -/
theorem mux_createStream_spec_witness :
    ((Mux.Multiplexer.new 2).max_streams ≤ (Mux.Multiplexer.new 2).streams.length →
      (Mux.Multiplexer.new 2).createStream .bestEffort =
        .error (.maxStreamsExceeded (Mux.Multiplexer.new 2).max_streams)) ∧
    ((Mux.Multiplexer.new 2).streams.length < (Mux.Multiplexer.new 2).max_streams →
      (Mux.Multiplexer.new 2).createStream .bestEffort =
        .ok ((Mux.Multiplexer.new 2).next_client_stream_id,
          { Mux.Multiplexer.new 2 with
            streams := insertKey (Mux.Multiplexer.new 2).next_client_stream_id
              (Mux.Stream.mk (Mux.Multiplexer.new 2).next_client_stream_id
                .bestEffort .opened)
              (Mux.Multiplexer.new 2).streams
            next_client_stream_id :=
              ((Mux.Multiplexer.new 2).next_client_stream_id + 2) % 4294967296 })) :=
  mux_createStream_spec (Mux.Multiplexer.new 2) .bestEffort (by decide)

/-! ## CUBIC congestion controller (`nexstream/src/congestion/cubic.rs`).

The two IEEE-754 `f64` computations are abstracted soundly: the
congestion-avoidance increase `((target - cwnd)/(cwnd/MSS)).max(0.0) as
usize` is an arbitrary per-call natural (`incr`, universally quantified),
and the multiplicative decrease `(cwnd as f64 * BETA) as usize` is an
oracle `betaDec` constrained only by `betaDec w ≤ w` — which holds for the
real doubles since every `cwnd ≤ MAX_CWND = 2^30` is exact in `f64`,
`0.7 * w` rounds to a double at most `w`, and the `as usize` cast
truncates.  The float-only fields `k` and the `f64` view of `w_max` do not
feed back into any integer state except through these two values. -/

namespace Congestion

/-- Default maximum segment size. -/
def MSS : Nat := 1200

/-- `INITIAL_WINDOW = 10 * MSS`. -/
def INITIAL_WINDOW : Nat := 10 * MSS

/-- `MIN_WINDOW = 2 * MSS`. -/
def MIN_WINDOW : Nat := 2 * MSS

/-- `MAX_CWND` = 1 GiB. -/
def MAX_CWND : Nat := 1024 * 1024 * 1024

/-- `usize::MAX`. -/
def USIZE_MAX : Nat := 18446744073709551615

/-- `Cubic` controller state (integer fields; `w_max` stores the cwnd
value whose `f64` image the source keeps, `k` is float-only and omitted). -/
structure Cubic where
  cwnd : Nat
  ssthresh : Nat
  w_max : Nat
  epoch_start : Option Nat
  in_flight : Nat
  ack_accum : Nat
  deriving DecidableEq, Repr

/-- `Cubic::new`. -/
def Cubic.new : Cubic := ⟨INITIAL_WINDOW, USIZE_MAX, 0, none, 0, 0⟩

/-- `Cubic::in_slow_start`. -/
def Cubic.inSlowStart (c : Cubic) : Bool := c.cwnd < c.ssthresh

/-- `on_packet_sent`: `in_flight += bytes` (u64 wrap in release builds). -/
def Cubic.onPacketSent (c : Cubic) (bytes : Nat) : Cubic :=
  { c with in_flight := (c.in_flight + bytes) % 18446744073709551616 }

/-- `on_ack`: saturating-subtract from `in_flight`; slow start adds one
MSS (saturating, clamped to `MAX_CWND`) and starts a CA epoch on crossing
`ssthresh`; congestion avoidance opens an epoch if none, accumulates ACKed
bytes, and once `ack_accum ≥ cwnd` applies `max(incr, 1)` (saturating,
clamped) and resets the accumulator.  `incr` stands for the f64 increase
expression. -/
def Cubic.onAck (c : Cubic) (bytes now incr : Nat) : Cubic :=
  let c1 := { c with in_flight := c.in_flight - bytes }
  if c1.cwnd < c1.ssthresh then
    let c2 := { c1 with cwnd := min (min (c1.cwnd + MSS) USIZE_MAX) MAX_CWND }
    if c2.ssthresh ≤ c2.cwnd then { c2 with epoch_start := some now } else c2
  else
    let c2 := if c1.epoch_start = none then
        { c1 with epoch_start := some now, ack_accum := 0 }
      else c1
    let c3 := { c2 with ack_accum := (c2.ack_accum + bytes) % 18446744073709551616 }
    if c3.cwnd ≤ c3.ack_accum then
      { c3 with cwnd := min (min (c3.cwnd + max incr 1) USIZE_MAX) MAX_CWND
                ack_accum := 0 }
    else c3

/-- `on_loss`: saturating-subtract from `in_flight`; `w_max := cwnd`;
`ssthresh := max(dec, MIN_WINDOW)` with `dec` the f64 multiplicative
decrease; `cwnd := ssthresh`; clear the epoch and the accumulator. -/
def Cubic.onLoss (c : Cubic) (bytes dec : Nat) : Cubic :=
  { c with in_flight := c.in_flight - bytes
           w_max := c.cwnd
           ssthresh := max dec MIN_WINDOW
           cwnd := max dec MIN_WINDOW
           epoch_start := none
           ack_accum := 0 }

/-- One controller call, with the float results it consumes. -/
inductive COp where
  | sent (bytes : Nat)
  | ackOp (bytes now incr : Nat)
  | loss (bytes : Nat)
  deriving DecidableEq, Repr

/-- Apply one call; `betaDec` supplies the f64 multiplicative decrease. -/
def Cubic.applyOp (betaDec : Nat → Nat) (c : Cubic) : COp → Cubic
  | .sent bytes => c.onPacketSent bytes
  | .ackOp bytes now incr => c.onAck bytes now incr
  | .loss bytes => c.onLoss bytes (betaDec c.cwnd)

/-- Run a call sequence from a state. -/
def Cubic.run (betaDec : Nat → Nat) (c : Cubic) (ops : List COp) : Cubic :=
  ops.foldl (Cubic.applyOp betaDec) c

theorem applyOp_cwnd_bounds (betaDec : Nat → Nat) (hbeta : ∀ w, betaDec w ≤ w)
    (c : Cubic) (op : COp) (h1 : MIN_WINDOW ≤ c.cwnd) (h2 : c.cwnd ≤ MAX_CWND) :
    MIN_WINDOW ≤ (c.applyOp betaDec op).cwnd ∧ (c.applyOp betaDec op).cwnd ≤ MAX_CWND := by
  cases op with
  | sent bytes => exact ⟨h1, h2⟩
  | ackOp bytes now incr =>
      simp only [Cubic.applyOp, Cubic.onAck]
      split
      · split
        · constructor
          · show MIN_WINDOW ≤ min (min (c.cwnd + MSS) USIZE_MAX) MAX_CWND
            simp only [MIN_WINDOW, MSS, USIZE_MAX, MAX_CWND] at *
            omega
          · show min (min (c.cwnd + MSS) USIZE_MAX) MAX_CWND ≤ MAX_CWND
            omega
        · constructor
          · show MIN_WINDOW ≤ min (min (c.cwnd + MSS) USIZE_MAX) MAX_CWND
            simp only [MIN_WINDOW, MSS, USIZE_MAX, MAX_CWND] at *
            omega
          · show min (min (c.cwnd + MSS) USIZE_MAX) MAX_CWND ≤ MAX_CWND
            omega
      · split
        · split
          · constructor
            · show MIN_WINDOW ≤ min (min (c.cwnd + max incr 1) USIZE_MAX) MAX_CWND
              simp only [MIN_WINDOW, USIZE_MAX, MAX_CWND] at *
              omega
            · show min (min (c.cwnd + max incr 1) USIZE_MAX) MAX_CWND ≤ MAX_CWND
              omega
          · exact ⟨h1, h2⟩
        · split
          · constructor
            · show MIN_WINDOW ≤ min (min (c.cwnd + max incr 1) USIZE_MAX) MAX_CWND
              simp only [MIN_WINDOW, USIZE_MAX, MAX_CWND] at *
              omega
            · show min (min (c.cwnd + max incr 1) USIZE_MAX) MAX_CWND ≤ MAX_CWND
              omega
          · exact ⟨h1, h2⟩
  | loss bytes =>
      have hb := hbeta c.cwnd
      simp only [Cubic.applyOp, Cubic.onLoss]
      constructor
      · show MIN_WINDOW ≤ max (betaDec c.cwnd) MIN_WINDOW
        omega
      · show max (betaDec c.cwnd) MIN_WINDOW ≤ MAX_CWND
        simp only [MIN_WINDOW, MSS, MAX_CWND] at *
        omega

theorem run_cwnd_bounds (betaDec : Nat → Nat) (hbeta : ∀ w, betaDec w ≤ w)
    (ops : List COp) (c : Cubic) (h1 : MIN_WINDOW ≤ c.cwnd) (h2 : c.cwnd ≤ MAX_CWND) :
    MIN_WINDOW ≤ (c.run betaDec ops).cwnd ∧ (c.run betaDec ops).cwnd ≤ MAX_CWND := by
  induction ops generalizing c with
  | nil => exact ⟨h1, h2⟩
  | cons op rest ih =>
      have hstep := applyOp_cwnd_bounds betaDec hbeta c op h1 h2
      exact ih (c.applyOp betaDec op) hstep.1 hstep.2

end Congestion

/-- C6: for every finite sequence of `on_packet_sent` / `on_ack` /
`on_loss` calls from `Cubic::new()` — with the two `f64` computations
abstracted as an arbitrary per-ACK increase and a multiplicative-decrease
oracle satisfying `betaDec w ≤ w`, which the real doubles satisfy — the
congestion window stays in `[MIN_WINDOW, MAX_CWND] = [2400, 2^30]` after
every call, and `bytes_in_flight`, a natural number maintained with
saturating subtraction, is always `≥ 0`. -/
theorem cubic_cwnd_bounds_invariant (betaDec : Nat → Nat)
    (hbeta : ∀ w, betaDec w ≤ w) (ops : List Congestion.COp) :
    Congestion.MIN_WINDOW ≤ (Congestion.Cubic.new.run betaDec ops).cwnd ∧
      (Congestion.Cubic.new.run betaDec ops).cwnd ≤ Congestion.MAX_CWND ∧
      0 ≤ (Congestion.Cubic.new.run betaDec ops).in_flight := by
  have h := Congestion.run_cwnd_bounds betaDec hbeta ops Congestion.Cubic.new
    (by simp [Congestion.Cubic.new, Congestion.MIN_WINDOW, Congestion.INITIAL_WINDOW,
      Congestion.MSS])
    (by simp [Congestion.Cubic.new, Congestion.MAX_CWND, Congestion.INITIAL_WINDOW,
      Congestion.MSS])
  exact ⟨h.1, h.2, Nat.zero_le _⟩

/-- Witness for C6: `betaDec w = w * 7 / 10` (the rounded-down real
product, which satisfies the oracle bound) over a send/ack/loss sequence. -/
theorem cubic_cwnd_bounds_invariant_witness :
    Congestion.MIN_WINDOW ≤ (Congestion.Cubic.new.run (fun w => w * 7 / 10)
        [.sent 1200, .ackOp 1200 0 0, .loss 100]).cwnd ∧
      (Congestion.Cubic.new.run (fun w => w * 7 / 10)
        [.sent 1200, .ackOp 1200 0 0, .loss 100]).cwnd ≤ Congestion.MAX_CWND ∧
      0 ≤ (Congestion.Cubic.new.run (fun w => w * 7 / 10)
        [.sent 1200, .ackOp 1200 0 0, .loss 100]).in_flight :=
  cubic_cwnd_bounds_invariant (fun w => w * 7 / 10) (fun w => (by omega : w * 7 / 10 ≤ w))
    [.sent 1200, .ackOp 1200 0 0, .loss 100]

/-! ## Model Identity Certificate (`nextrust/src/mic/mod.rs`,
`strandtrust/src/mic/builder.rs`, `strandtrust/src/mic/validator.rs`).

The Ed25519 primitive (ed25519-dalek, external to this repository) is
abstracted: `sign`, `publicKeyBytes` and `verifySignature` are parameters,
with the scheme's correctness — verifying a signature produced by `sign`
under the matching public key succeeds, including the
`VerifyingKey::from_bytes` parse — as the single hypothesis. -/

namespace Mic

/-- `NexTrustError` variants used by the MIC code. -/
inductive MicError where
  | micBuild (msg : String)
  | invalidKey (msg : String)
  | signatureVerification
  | micExpired (not_after now : Nat)
  | micNotYetValid (not_before now : Nat)
  deriving DecidableEq, Repr

/-- `Capability`; the custom tag carries its UTF-8 bytes. -/
inductive Capability where
  | textGeneration
  | codeGeneration
  | imageUnderstanding
  | toolUse
  | rag
  | embedding
  | custom (s : List Nat)
  deriving DecidableEq, Repr

/-- `Capability::tag`. -/
def Capability.tag : Capability → Nat
  | .textGeneration => 0x01
  | .codeGeneration => 0x02
  | .imageUnderstanding => 0x03
  | .toolUse => 0x04
  | .rag => 0x05
  | .embedding => 0x06
  | .custom _ => 0xFF

/-- `Provenance`: description bytes, 32-byte dataset hash, u64 timestamp. -/
structure Provenance where
  description : List Nat
  dataset_hash : List Nat
  timestamp : Nat
  deriving DecidableEq, Repr

/-- `MIC`; all byte arrays as byte lists, u64 timestamps as `Nat`. -/
structure MIC where
  node_id : List Nat
  model_hash : List Nat
  capabilities : List Capability
  training_provenance : Option Provenance
  valid_from : Nat
  valid_until : Nat
  signature : List Nat
  issuer_public_key : List Nat
  deriving DecidableEq, Repr

/-- `MIC::VERSION`. -/
def VERSION : Nat := 1

/-- `MIC::signable_bytes`: version, node_id, model_hash, u16 capability
count then tagged capabilities (custom: tag, u16 length, bytes),
provenance flag and fields, validity window, issuer public key.  The
`len() as u16` casts are the `% 65536`. -/
def MIC.signable_bytes (m : MIC) : List Nat :=
  VERSION :: m.node_id ++ m.model_hash
    ++ be16 (m.capabilities.length % 65536)
    ++ (m.capabilities.flatMap fun cap =>
        match cap with
        | .custom s => Capability.tag (.custom s) :: be16 (s.length % 65536) ++ s
        | c => [c.tag])
    ++ (match m.training_provenance with
        | some prov => 1 :: be16 (prov.description.length % 65536) ++ prov.description
            ++ prov.dataset_hash ++ be64 prov.timestamp
        | none => [0])
    ++ be64 m.valid_from ++ be64 m.valid_until
    ++ m.issuer_public_key

/-- `ValidationResult`. -/
structure ValidationResult where
  signature_valid : Bool
  time_valid : Bool
  deriving DecidableEq, Repr

/-- `MICBuilder` over an abstract keypair type. -/
structure MICBuilder (Sk : Type) where
  keypair : Sk
  model_hash : Option (List Nat)
  capabilities : List Capability
  training_provenance : Option Provenance
  valid_from : Option Nat
  valid_until : Option Nat

/-- `MICBuilder::build`: require model_hash and a validity window with
`valid_until > valid_from`; node_id and issuer are the keypair's 32-byte
public key; sign the canonical signable bytes. -/
def MICBuilder.build {Sk : Type} (publicKeyBytes : Sk → List Nat)
    (sign : Sk → List Nat → List Nat) (b : MICBuilder Sk) : Except MicError MIC :=
  match b.model_hash with
  | none => .error (.micBuild ("model_hash is required"))
  | some model_hash =>
      match b.valid_from with
      | none => .error (.micBuild ("validity window is required"))
      | some valid_from =>
          match b.valid_until with
          | none => .error (.micBuild ("validity window is required"))
          | some valid_until =>
              if valid_until ≤ valid_from then
                .error (.micBuild ("valid_until must be after valid_from"))
              else
                let node_id := publicKeyBytes b.keypair
                let issuer_public_key := publicKeyBytes b.keypair
                let mic0 : MIC := ⟨node_id, model_hash, b.capabilities,
                  b.training_provenance, valid_from, valid_until,
                  List.replicate 64 0, issuer_public_key⟩
                .ok { mic0 with signature := sign b.keypair mic0.signable_bytes }

/-- `validate`: verify the signature over the signable bytes under the
issuer public key, then check the validity window against `now`. -/
def validate (verifySignature : List Nat → List Nat → List Nat → Except MicError Unit)
    (mic : MIC) (now : Nat) : Except MicError ValidationResult :=
  match verifySignature mic.issuer_public_key mic.signable_bytes mic.signature with
  | .error e => .error e
  | .ok _ =>
      if now < mic.valid_from then .error (.micNotYetValid mic.valid_from now)
      else if mic.valid_until < now then .error (.micExpired mic.valid_until now)
      else .ok ⟨true, true⟩

end Mic

theorem mic_validate_ok_of
    (verifySignature : List Nat → List Nat → List Nat → Except Mic.MicError Unit)
    (mic : Mic.MIC) (now : Nat)
    (hver : verifySignature mic.issuer_public_key mic.signable_bytes mic.signature =
      .ok ())
    (h1 : ¬now < mic.valid_from) (h2 : ¬mic.valid_until < now) :
    Mic.validate verifySignature mic now = .ok ⟨true, true⟩ := by
  rw [Mic.validate, hver, if_neg h1, if_neg h2]

/-- C9: for any correct signature scheme, every MIC successfully produced
by `MICBuilder::build` (model hash set, any capabilities and optional
provenance, validity window with `valid_until > valid_from`) validates at
every `now` with `valid_from ≤ now ≤ valid_until`, returning
`signature_valid = time_valid = true`. -/
theorem mic_build_then_validate_ok {Sk : Type}
    (publicKeyBytes : Sk → List Nat) (sign : Sk → List Nat → List Nat)
    (verifySignature : List Nat → List Nat → List Nat → Except Mic.MicError Unit)
    (hcorrect : ∀ sk msg, verifySignature (publicKeyBytes sk) msg (sign sk msg) = .ok ())
    (b : Mic.MICBuilder Sk) (mh : List Nat) (vf vu now : Nat)
    (hmh : b.model_hash = some mh) (hvf : b.valid_from = some vf)
    (hvu : b.valid_until = some vu) (hwin : vf < vu)
    (hnow1 : vf ≤ now) (hnow2 : now ≤ vu) :
    ∃ mic, b.build publicKeyBytes sign = .ok mic ∧
      Mic.validate verifySignature mic now = .ok ⟨true, true⟩ := by
  simp only [Mic.MICBuilder.build, hmh, hvf, hvu, if_neg (by omega : ¬vu ≤ vf)]
  refine ⟨_, rfl, ?_⟩
  exact mic_validate_ok_of verifySignature _ now
    (hcorrect b.keypair (Mic.MIC.signable_bytes ⟨publicKeyBytes b.keypair, mh,
      b.capabilities, b.training_provenance, vf, vu, List.replicate 64 0,
      publicKeyBytes b.keypair⟩))
    (show ¬now < vf by omega) (show ¬vu < now by omega)

/-- Witness for C9 with the trivial correct scheme (empty keys and
signatures, verification always succeeding) and a builder with model hash
`[170]*32?`, window `[1000, 2000]`, validated at `now = 1500`. -/
theorem mic_build_then_validate_ok_witness :
    ∃ mic, (Mic.MICBuilder.mk 0 (some (List.replicate 32 170)) [] none
        (some 1000) (some 2000)).build (fun _ => List.replicate 32 1)
        (fun _ _ => List.replicate 64 2) = .ok mic ∧
      Mic.validate (fun _ _ _ => .ok ()) mic 1500 = .ok ⟨true, true⟩ :=
  @mic_build_then_validate_ok Nat (fun _ => List.replicate 32 1)
    (fun _ _ => List.replicate 64 2) (fun _ _ _ => .ok ())
    (fun _ _ => rfl) (Mic.MICBuilder.mk 0 (some (List.replicate 32 170)) [] none
      (some 1000) (some 2000)) (List.replicate 32 170) 1000 2000 1500
    rfl rfl rfl (by omega) (by omega) (by omega)

/-! ## HKDF-SHA256 session-key derivation
(`strandtrust/src/crypto/x25519.rs`).  The `sha2` / `hkdf` crates are
external standard algorithms; they are embedded here executably from
FIPS 180-4 (SHA-256), RFC 2104 (HMAC) and RFC 5869 (HKDF), so that
`derive_session_keys` can be evaluated on concrete inputs. -/

namespace Crypto

/-- Truncate to a 32-bit word. -/
def w32 (x : Nat) : Nat := x % 4294967296

/-- 32-bit rotate right. -/
def rotr (x n : Nat) : Nat := ((x >>> n) ||| (x <<< (32 - n))) % 4294967296

def ch (x y z : Nat) : Nat := (x &&& y) ^^^ ((x ^^^ 4294967295) &&& z)

def maj (x y z : Nat) : Nat := (x &&& y) ^^^ (x &&& z) ^^^ (y &&& z)

def bigSigma0 (x : Nat) : Nat := rotr x 2 ^^^ rotr x 13 ^^^ rotr x 22

def bigSigma1 (x : Nat) : Nat := rotr x 6 ^^^ rotr x 11 ^^^ rotr x 25

def smallSigma0 (x : Nat) : Nat := rotr x 7 ^^^ rotr x 18 ^^^ (x >>> 3)

def smallSigma1 (x : Nat) : Nat := rotr x 17 ^^^ rotr x 19 ^^^ (x >>> 10)

/-- SHA-256 round constants (FIPS 180-4). -/
def K : List Nat :=
  [1116352408, 1899447441, 3049323471, 3921009573, 961987163, 1508970993,
   2453635748, 2870763221, 3624381080, 310598401, 607225278, 1426881987,
   1925078388, 2162078206, 2614888103, 3248222580, 3835390401, 4022224774,
   264347078, 604807628, 770255983, 1249150122, 1555081692, 1996064986,
   2554220882, 2821834349, 2952996808, 3210313671, 3336571891, 3584528711,
   113926993, 338241895, 666307205, 773529912, 1294757372, 1396182291,
   1695183700, 1986661051, 2177026350, 2456956037, 2730485921, 2820302411,
   3259730800, 3345764771, 3516065817, 3600352804, 4094571909, 275423344,
   430227734, 506948616, 659060556, 883997877, 958139571, 1322822218,
   1537002063, 1747873779, 1955562222, 2024104815, 2227730452, 2361852424,
   2428436474, 2756734187, 3204031479, 3329325298]

/-- SHA-256 initial hash state (FIPS 180-4). -/
def H0 : List Nat :=
  [1779033703, 3144134277, 1013904242, 2773480762, 1359893119, 2600822924,
   528734635, 1541459225]

/-- Big-endian 32-bit words from bytes. -/
def bytesToWords : List Nat → List Nat
  | a :: b :: c :: d :: rest => rd32 a b c d :: bytesToWords rest
  | _ => []

/-- Extend the 16-word block to the 64-word message schedule. -/
def buildW (w : List Nat) : Nat → List Nat
  | 0 => w
  | n + 1 =>
      let L := w.length
      buildW (w ++ [w32 (smallSigma1 (w.getD (L - 2) 0) + w.getD (L - 7) 0 +
        smallSigma0 (w.getD (L - 15) 0) + w.getD (L - 16) 0)]) n

/-- One SHA-256 round on the eight-word working state. -/
def roundFn (st : List Nat) (wk : Nat × Nat) : List Nat :=
  match st with
  | [a, b, c, d, e, f, g, h] =>
      let t1 := w32 (h + bigSigma1 e + ch e f g + wk.2 + wk.1)
      let t2 := w32 (bigSigma0 a + maj a b c)
      [w32 (t1 + t2), a, b, c, w32 (d + t1), e, f, g]
  | other => other

/-- SHA-256 compression of one 64-byte block. -/
def compressBlock (hs : List Nat) (block : List Nat) : List Nat :=
  let w := buildW (bytesToWords block) 48
  let st := (w.zip K).foldl roundFn hs
  (hs.zip st).map fun p => w32 (p.1 + p.2)

/-- Split into `n` 64-byte blocks (the padded message has exactly
`length / 64` of them). -/
def chunks64 : Nat → List Nat → List (List Nat)
  | 0, _ => []
  | n + 1, l => l.take 64 :: chunks64 n (l.drop 64)

/-- SHA-256 of a byte list (FIPS 180-4 padding then compression). -/
def sha256 (msg : List Nat) : List Nat :=
  let L := msg.length
  let r := (L + 1) % 64
  let k := (56 + 64 - r) % 64
  let padded := msg ++ 128 :: List.replicate k 0 ++ be64 (L * 8)
  let hs := (chunks64 (padded.length / 64) padded).foldl compressBlock H0
  hs.flatMap be32

/-- HMAC-SHA256 (RFC 2104, block size 64). -/
def hmacSha256 (key msg : List Nat) : List Nat :=
  let k0 := if 64 < key.length then sha256 key else key
  let kp := k0 ++ List.replicate (64 - k0.length) 0
  let ipadKey := kp.map fun b => b ^^^ 0x36
  let opadKey := kp.map fun b => b ^^^ 0x5C
  sha256 (opadKey ++ sha256 (ipadKey ++ msg))

/-- HKDF-Extract (RFC 5869): `PRK = HMAC(salt, IKM)`. -/
def hkdfExtract (salt ikm : List Nat) : List Nat := hmacSha256 salt ikm

/-- The `T(1) ‖ T(2) ‖ …` expansion stream of HKDF-Expand. -/
def expandLoop (prk info : List Nat) : Nat → List Nat → Nat → List Nat
  | 0, _, _ => []
  | n + 1, tPrev, i =>
      let t := hmacSha256 prk (tPrev ++ info ++ [i])
      t ++ expandLoop prk info n t (i + 1)

/-- HKDF-Expand output bytes (callers check the 255·HashLen bound). -/
def hkdfExpandBytes (prk info : List Nat) (len : Nat) : List Nat :=
  (expandLoop prk info ((len + 31) / 32) [] 1).take len

/-- HKDF-Expand with the RFC 5869 length check, as the `hkdf` crate's
`expand` (which errors for more than `255 * HashLen` output bytes). -/
def hkdfExpand (prk info : List Nat) (len : Nat) : Option (List Nat) :=
  if 255 * 32 < len then none else some (hkdfExpandBytes prk info len)

/-- `StrandTrustError` as raised by `derive_session_keys` (the message
string of `Encryption(format!(..))` is not tracked; the branch is
unreachable for the fixed 32/12-byte output lengths). -/
inductive TrustError where
  | encryption
  deriving DecidableEq, Repr

/-- `SessionKeys`. -/
structure SessionKeys where
  client_write_key : List Nat
  server_write_key : List Nat
  client_write_iv : List Nat
  server_write_iv : List Nat
  deriving DecidableEq, Repr

/-- ASCII bytes of "strand handshake". -/
def strandHandshakeLabel : List Nat :=
  [115, 116, 114, 97, 110, 100, 32, 104, 97, 110, 100, 115, 104, 97, 107, 101]

/-- ASCII bytes of "client write key". -/
def clientWriteKeyLabel : List Nat :=
  [99, 108, 105, 101, 110, 116, 32, 119, 114, 105, 116, 101, 32, 107, 101, 121]

/-- ASCII bytes of "server write key". -/
def serverWriteKeyLabel : List Nat :=
  [115, 101, 114, 118, 101, 114, 32, 119, 114, 105, 116, 101, 32, 107, 101, 121]

/-- ASCII bytes of "client write iv". -/
def clientWriteIvLabel : List Nat :=
  [99, 108, 105, 101, 110, 116, 32, 119, 114, 105, 116, 101, 32, 105, 118]

/-- ASCII bytes of "server write iv". -/
def serverWriteIvLabel : List Nat :=
  [115, 101, 114, 118, 101, 114, 32, 119, 114, 105, 116, 101, 32, 105, 118]

/-- `derive_session_keys`: `Hkdf::<Sha256>::new(Some(&[0u8; 32]), z)` is
Extract with the explicit zero salt; the second stage
`Hkdf::new(None, &handshake_secret)` is Extract with the RFC 5869 default
salt — a zero-filled block of hash length (32 zero bytes) — over the
handshake secret; each key is then Expand of that second PRK with
`label ‖ client_node_id ‖ server_node_id`. -/
def derive_session_keys (shared_secret client_node_id server_node_id : List Nat) :
    Except TrustError SessionKeys :=
  let salt := List.replicate 32 0
  let hk := hkdfExtract salt shared_secret
  match hkdfExpand hk strandHandshakeLabel 32 with
  | none => .error .encryption
  | some handshake_secret =>
      let hk2 := hkdfExtract (List.replicate 32 0) handshake_secret
      let makeInfo := fun (label : List Nat) =>
        label ++ client_node_id ++ server_node_id
      match hkdfExpand hk2 (makeInfo clientWriteKeyLabel) 32 with
      | none => .error .encryption
      | some client_write_key =>
          match hkdfExpand hk2 (makeInfo serverWriteKeyLabel) 32 with
          | none => .error .encryption
          | some server_write_key =>
              match hkdfExpand hk2 (makeInfo clientWriteIvLabel) 12 with
              | none => .error .encryption
              | some client_write_iv =>
                  match hkdfExpand hk2 (makeInfo serverWriteIvLabel) 12 with
                  | none => .error .encryption
                  | some server_write_iv =>
                      .ok ⟨client_write_key, server_write_key,
                        client_write_iv, server_write_iv⟩

/-- The claim's formula for one session key: `HKDF-Expand(handshake_secret,
label ‖ client_node_id ‖ server_node_id, len)` where `handshake_secret =
HKDF-Expand(HKDF-Extract(zeros(32), z), "strand handshake", 32)` — with
**no** second Extract.  Written from the spec's words, to be compared with
`derive_session_keys`. -/
def specSessionKey (z cid sid label : List Nat) (len : Nat) : List Nat :=
  let handshake_secret :=
    hkdfExpandBytes (hkdfExtract (List.replicate 32 0) z) strandHandshakeLabel 32
  hkdfExpandBytes handshake_secret (label ++ cid ++ sid) len

/-- The amended formula: identical, except that the per-key expansion uses
`HKDF-Extract(zeros(32), handshake_secret)` as its PRK — the extra Extract
the source's `Hkdf::new(None, &handshake_secret)` performs. -/
def amendedSessionKey (z cid sid label : List Nat) (len : Nat) : List Nat :=
  let handshake_secret :=
    hkdfExpandBytes (hkdfExtract (List.replicate 32 0) z) strandHandshakeLabel 32
  hkdfExpandBytes (hkdfExtract (List.replicate 32 0) handshake_secret)
    (label ++ cid ++ sid) len

end Crypto

set_option maxRecDepth 100000 in
set_option maxHeartbeats 4000000 in
/-- C1 counterexample: at the all-zero shared secret and node IDs,
`derive_session_keys` succeeds but its client write key differs from
`HKDF-Expand(handshake_secret, "client write key" ‖ ids, 32)`: the source
runs the per-key expansion from `Hkdf::new(None, &handshake_secret)`,
i.e. from `HKDF-Extract(zeros(32), handshake_secret)`, not from
`handshake_secret` itself. -/
theorem derive_session_keys_counterexample :
    ((Crypto.derive_session_keys (List.replicate 32 0) (List.replicate 16 0)
        (List.replicate 16 0)).toOption.map
      Crypto.SessionKeys.client_write_key).isSome = true ∧
    ((Crypto.derive_session_keys (List.replicate 32 0) (List.replicate 16 0)
        (List.replicate 16 0)).toOption.map
      Crypto.SessionKeys.client_write_key) ≠
      some (Crypto.specSessionKey (List.replicate 32 0) (List.replicate 16 0)
        (List.replicate 16 0) Crypto.clientWriteKeyLabel 32) := by
  decide

/-- C1 (amended): for every 32-byte shared secret and pair of node IDs,
`derive_session_keys` produces, for each (label, length), the key
`HKDF-Expand(HKDF-Extract(salt = zeros(32), ikm = handshake_secret),
label ‖ client_node_id ‖ server_node_id, length)`, where
`handshake_secret = HKDF-Expand(HKDF-Extract(salt = zeros(32), ikm = z),
"strand handshake", 32)` — the inner Extract being the RFC 5869 default
zero salt the source's `Hkdf::new(None, &handshake_secret)` applies. -/
theorem derive_session_keys_amended (z cid sid : List Nat) :
    Crypto.derive_session_keys z cid sid = .ok
      ⟨Crypto.amendedSessionKey z cid sid Crypto.clientWriteKeyLabel 32,
        Crypto.amendedSessionKey z cid sid Crypto.serverWriteKeyLabel 32,
        Crypto.amendedSessionKey z cid sid Crypto.clientWriteIvLabel 12,
        Crypto.amendedSessionKey z cid sid Crypto.serverWriteIvLabel 12⟩ := rfl

end Strand
